import Mathlib

/-!
Verification of the OME compiler core (the `ome` Python package).

This file is a shallow embedding of the parts of the source that the
specification claims talk about:

* `ome/parser.py` — the recursive-descent parser with significant
  indentation (numbers, strings, blocks, statements, expressions);
* `ome/compiler.py` — `IdAllocator.allocate_ids`, `Program.__init__`
  (the `main`-method check), `Program.compile_traceback_info`,
  `Program.find_used_methods`, `Program.emit_code_declarations`;
* `ome/builder.py` — `MethodCodeBuilder`.

Python strings are embedded as `List Char`, machine integers as `Int`
(Python integers are unbounded), dictionaries as association lists and
sets as lists used only up to membership.  Fallible code returns
`Except`/`Option`; an uncaught Python exception (`ValueError`,
`AttributeError`) is a distinguished error value.
-/

namespace Ome

/-! ## Python primitives -/

/-- Python `str.rstrip('0')` on a list of characters. -/
def rstripZeros (s : List Char) : List Char :=
  (s.reverse.dropWhile (· = '0')).reverse

/-- ASCII decimal digit test (`[0-9]` in the regexes of `ome/parser.py`). -/
def isDigitChar (c : Char) : Bool := '0' ≤ c && c ≤ '9'

/-- Value of one ASCII digit. -/
def digitVal (c : Char) : Nat := c.toNat - '0'.toNat

/-- Value of a list of ASCII digits read in base 10. -/
def digitsVal (l : List Char) : Nat :=
  l.foldl (fun a c => a * 10 + digitVal c) 0

/-- Python `int(s, 10)` restricted to the shapes that occur in
`Parser.atom`: an optional sign followed by digits.  `none` models an
uncaught `ValueError` (e.g. for `"-"`, `"+"` or `""`). -/
def pyInt (l : List Char) : Option Int :=
  match l with
  | '-' :: rest =>
      if rest ≠ [] ∧ rest.all isDigitChar then some (-(digitsVal rest : Int)) else none
  | '+' :: rest =>
      if rest ≠ [] ∧ rest.all isDigitChar then some (digitsVal rest : Int) else none
  | _ =>
      if l ≠ [] ∧ l.all isDigitChar then some (digitsVal l : Int) else none

/-! ## The numeric-literal branch of `Parser.atom` (parser.py lines 348-359)

The regex `re_number` produces three groups: the integer part `whole`
(`[+-]?[0-9]+`), the optional `decimal` digits and the optional
`exponent` (`[+-]?[0-9]+`).  `atomNumber` is the computation the parser
performs on those groups; `none` models the uncaught `ValueError`
raised by `int(whole_stripped, 10)` when stripping the zeros of a
signed all-zero integer part leaves a bare sign. -/

def atomNumber (whole : List Char) (decimal exponent : Option (List Char)) :
    Option (Int × Int) :=
  let ws := rstripZeros whole
  let wholeStripped := if ws.isEmpty then ['0'] else ws
  (pyInt wholeStripped).bind fun significand =>
  let trailing : Int := (whole.length : Int) - wholeStripped.length
  (match exponent with
   | some e => pyInt e
   | none => some 0).bind fun e0 =>
  let exponent1 := e0 + trailing
  let dec := match decimal with
   | some d => rstripZeros d
   | none => []
  if dec.isEmpty then
    some (significand, exponent1)
  else
    (pyInt dec).bind fun dv =>
    some (significand * 10 ^ dec.length + dv, exponent1 - dec.length)

/-- The exact decimal value denoted by a numeric literal, in the integer
form `(m, d, e)` standing for `m / 10^d · 10^e`: `m` is the integer part
with the decimal digits appended (signed), `d` the number of decimal
digits and `e` the exponent.  For the literal `100.5` this is
`(1005, 1, 0)`, i.e. `100.5`. -/
def literalParts (whole : List Char) (decimal exponent : Option (List Char)) :
    Option (Int × Nat × Int) :=
  (pyInt whole).bind fun i =>
  (match exponent with
   | some e => pyInt e
   | none => some 0).bind fun e =>
  let d := decimal.getD []
  let dv : Int := digitsVal d
  some (i * 10 ^ d.length + (if whole.head? = some '-' then -dv else dv), d.length, e)

/-- The rational number denoted by `literalParts` output. -/
def literalQ : Int × Nat × Int → ℚ
  | (m, d, e) => (m : ℚ) / 10 ^ d * 10 ^ e

/-! ## Lexical matchers

The regexes at the top of `ome/parser.py` are embedded as deterministic
scanners over `List Char`.  Each matcher returns the payload the parser
reads off the match object together with the number of characters
consumed, or `none` when the regex does not match at the current
position.  Python's `re` backtracking is modelled faithfully where it is
observable (`re_string`). -/

def isAlphaChar (c : Char) : Bool :=
  ('a' ≤ c && c ≤ 'z') || ('A' ≤ c && c ≤ 'Z')

def isAlnumChar (c : Char) : Bool := isAlphaChar c || isDigitChar c

/-- Characters matched by `re_spaces` (`[ \r\n\t]`). -/
def isSpaceChar (c : Char) : Bool :=
  c = ' ' || c = '\r' || c = '\n' || c = '\t'

/-- Split a list into the longest prefix satisfying `p` and the rest. -/
def takeWhileSplit (p : Char → Bool) : List Char → List Char × List Char
  | [] => ([], [])
  | c :: r =>
    if p c then
      let s := takeWhileSplit p r
      (c :: s.1, s.2)
    else ([], c :: r)

/-- The part of a name after its leading letter:
`[a-zA-Z0-9]*(?:-[a-zA-Z0-9]+)*` consumes alphanumerics and any dash
that is immediately followed by an alphanumeric (a dash not followed by
one makes the group fail, so backtracking releases it). -/
def nameTail : List Char → List Char × List Char
  | [] => ([], [])
  | '-' :: d :: r2 =>
    if isAlnumChar d then
      let s := nameTail r2
      ('-' :: d :: s.1, s.2)
    else ([], '-' :: d :: r2)
  | c :: r =>
    if isAlnumChar c then
      let s := nameTail r
      (c :: s.1, s.2)
    else ([], c :: r)

/-- `re_name` (`~?[a-zA-Z][a-zA-Z0-9]*(?:-[a-zA-Z0-9]+)*`) when
`allowTilde`, `re_arg_name` (the same without `~?`) otherwise. -/
def matchNameCore (allowTilde : Bool) (s : List Char) :
    Option (List Char × Nat) :=
  let p := match s with
    | '~' :: r => if allowTilde then (['~'], r) else (([] : List Char), s)
    | _ => ([], s)
  match p.2 with
  | c :: r =>
    if isAlphaChar c then
      let t := nameTail r
      let matched := p.1 ++ c :: t.1
      some (matched, matched.length)
    else none
  | [] => none

def matchNameTok (s : List Char) : Option (List Char × Nat) :=
  matchNameCore true s

def matchArgNameTok (s : List Char) : Option (List Char × Nat) :=
  matchNameCore false s

/-- `re_keyword`: a (possibly `~`-prefixed) name immediately followed by
`:`; the parser reads the whole keyword including the colon. -/
def matchKeywordTok (s : List Char) : Option (List Char × Nat) :=
  (matchNameCore true s).bind fun p =>
    match s.drop p.2 with
    | ':' :: _ => some (p.1 ++ [':'], p.2 + 1)
    | _ => none

/-- `re_number` (`([+-]?[0-9]+)(?:\.([0-9]+))?(?:e([+-]?[0-9]+))?`):
payload is the triple of groups `(whole, decimal, exponent)`. -/
def matchNumberTok (s : List Char) :
    Option ((List Char × Option (List Char) × Option (List Char)) × Nat) :=
  let p := match s with
    | '+' :: r => (['+'], r)
    | '-' :: r => (['-'], r)
    | _ => (([] : List Char), s)
  let d := takeWhileSplit isDigitChar p.2
  if d.1.isEmpty then none
  else
    let whole := p.1 ++ d.1
    let q := match d.2 with
      | '.' :: r =>
        let d2 := takeWhileSplit isDigitChar r
        if d2.1.isEmpty then ((none : Option (List Char)), d.2) else (some d2.1, d2.2)
      | _ => (none, d.2)
    let x := match q.2 with
      | 'e' :: r =>
        let sg := match r with
          | '+' :: t => (['+'], t)
          | '-' :: t => (['-'], t)
          | _ => (([] : List Char), r)
        let d3 := takeWhileSplit isDigitChar sg.2
        if d3.1.isEmpty then ((none : Option (List Char)), q.2)
        else (some (sg.1 ++ d3.1), d3.2)
      | _ => (none, q.2)
    let len := whole.length
      + (match q.1 with | some dd => dd.length + 1 | none => 0)
      + (match x.1 with | some ee => ee.length + 1 | none => 0)
    some ((whole, q.1, x.1), len)

/-- All ways the body `(?:\\'|[^\r\n'])*` of `re_string` can match a
prefix of `s`, as `(consumed, rest)` pairs in the depth-first order in
which Python's backtracking engine tries them: at each position the
alternative `\\'` is preferred, then `[^\r\n']`, and stopping the star
comes last. -/
def stringBodies : List Char → List (List Char × List Char)
  | [] => [([], [])]
  | '\\' :: '\'' :: r2 =>
    ((stringBodies r2).map fun q => ('\\' :: '\'' :: q.1, q.2))
      ++ [(['\\'], '\'' :: r2), ([], '\\' :: '\'' :: r2)]
  | c :: r =>
    (if c ≠ '\r' ∧ c ≠ '\n' ∧ c ≠ '\'' then
      (stringBodies r).map fun q => (c :: q.1, q.2)
    else []) ++ [([], c :: r)]

/-- `re_string` (`'((?:\\'|[^\r\n'])*)'`): the payload is group 1, the
raw body between the quotes (escapes are not decoded here — the parser
passes `m.group(1)` to the `String` node unchanged). -/
def matchStringTok (s : List Char) : Option (List Char × Nat) :=
  match s with
  | '\'' :: r =>
    ((stringBodies r).find? fun q => q.2.head? = some '\'').map
      fun q => (q.1, q.1.length + 2)
  | _ => none

/-- `re_assign` (`=|:=`): ordered alternation, `=` first. -/
def matchAssignTok (s : List Char) : Option (List Char × Nat) :=
  match s with
  | '=' :: _ => some (['='], 1)
  | ':' :: '=' :: _ => some ([':', '='], 2)
  | _ => none

/-- `re_end_token` (`[|)}\]]`). -/
def matchEndTok (s : List Char) : Option (Char × Nat) :=
  match s with
  | c :: _ => if c = '|' || c = ')' || c = '}' || c = ']' then some (c, 1) else none
  | [] => none

/-- A literal string pattern, as used by `Parser.match` when the
pattern has no `match` attribute. -/
def matchLitTok (lit : List Char) (s : List Char) : Option (List Char × Nat) :=
  if lit.isPrefixOf s then some (lit, lit.length) else none

/-- `(?:#|--)([^\r\n]*)` — `re_comment`; returns the consumed length
(the comment text is collected but never read by the parser). -/
def matchCommentTok (s : List Char) : Option Nat :=
  match s with
  | '#' :: r => some (1 + (takeWhileSplit (fun c => c ≠ '\r' && c ≠ '\n') r).1.length)
  | '-' :: '-' :: r => some (2 + (takeWhileSplit (fun c => c ≠ '\r' && c ≠ '\n') r).1.length)
  | _ => none

/-! ## Parser state (`ParserState`, parser.py lines 16-60) -/

/-- The mutable fields of `ParserState`; `stream_name` is constant and
`comments` is write-only, so both are dropped. -/
structure PState where
  stream : List Char
  pos : Nat
  linePos : Nat
  lineNumber : Nat
  lineIndent : Nat
  indentLevel : Int
  indentLine : Int
  indentStack : List (Int × Int)
deriving Repr, DecidableEq

/-- `Parser.tab_width` default. -/
def tabWidth : Nat := 8

def initState (src : List Char) : PState :=
  { stream := src, pos := 0, linePos := 0, lineNumber := 1, lineIndent := 0,
    indentLevel := -1, indentLine := -1, indentStack := [] }

/-- `ParserState.column`. -/
def colOf (st : PState) : Nat := st.pos - st.linePos

/-- The AST nodes the parser builds (`ome/ast.py` constructors as the
parser calls them).  `pynone` is Python's `None` used as an expression
(`Parser.expr` can return `None`); a `send` stores its receiver (which
may be `pynone`), symbol, arguments and, when the parser passed one,
the `(line, column)` of the recorded parse state.  A `blockNode` stores
its slots as `(name, mutable, index)` and its methods as
`(symbol, argument names, body)`. -/
inductive Node where
  | pynone
  | number (significand exponent : Int)
  | strLit (content : List Char)
  | send (receiver : Node) (symbol : List Char) (args : List Node)
      (ps : Option (Nat × Nat))
  | arrayLit (elems : List Node)
  | sequence (statements : List Node)
  | localVar (name : List Char) (value : Node)
  | blockNode (slots : List (List Char × Bool × Nat))
      (methods : List (List Char × List (List Char) × Node))
  | emptyBlock
  | builtinRef (name : List Char)
deriving Repr

/-- Python truthiness of an AST node: only `None` is falsy. -/
def Node.isNone : Node → Bool
  | .pynone => true
  | _ => false

/-- The parse-error messages `ome/parser.py` can raise, one constructor
per distinct `error(...)` call site. -/
inductive PMsg where
  | reservedName
  | expectedArgumentName
  | tooManyParameters
  | expectedKeyword
  | expectedNameOrKeyword
  | expectedEndOfStatement
  | variableAlreadyDefined
  | expectedAssign
  | methodAlreadyDefined
  | methodConflictsWithVariable
  | expectedBar
  | expectedDeclarationOrEndOfBlock
  | expectedDeclarationOrEndOfFile
  | mutableVariablesOnlyInBlocks
  | assignmentLhsMustBeName
  | localVariablesCannotBePrivate
  | expectedStatementOrExpression
  | arraySizeTooBig
  | expectedExpression
  | privateMessageToExplicitReceiver
  | expectedCloseParen
  | expectedCloseBrace
  | expectedCloseBracket
deriving Repr, DecidableEq

/-- How a parse can fail: a formatted `ParserState.error` (with the
line and column it reports), an uncaught Python exception from `int()`
(`valueError`), an `IndexError` from popping an empty indent stack
(never reachable), or fuel exhaustion of the embedding. -/
inductive PErr where
  | parseError (lineNumber : Nat) (column : Nat) (msg : PMsg)
  | valueError
  | popEmptyStack
  | outOfFuel
deriving Repr, DecidableEq

/-- Outcome of running a piece of the parser: a value plus the updated
parser state, or an error. -/
inductive PResult (α : Type) : Type where
  | ok (a : α) (st : PState)
  | err (e : PErr)
deriving Repr

/-- The parser monad: state (the mutable `ParserState` fields) plus
failure.  Spelled out as a function type so that concrete parses reduce
definitionally. -/
def ParseM (α : Type) : Type := PState → PResult α

instance instMonadParseM : Monad ParseM where
  pure a := fun st => .ok a st
  bind m f := fun st =>
    match m st with
    | .ok a st2 => f a st2
    | .err e => .err e

def pget : ParseM PState := fun st => .ok st st

def pset (st2 : PState) : ParseM Unit := fun _ => .ok () st2

def pmodify (f : PState → PState) : ParseM Unit := fun st => .ok () (f st)

def pthrow {α} (e : PErr) : ParseM α := fun _ => .err e

def perror {α} (m : PMsg) : ParseM α := do
  let st ← pget
  pthrow (.parseError st.lineNumber (colOf st) m)

/-- `parse_state.error(...)` on a saved copy of the state. -/
def perrorAt {α} (ps : PState) (m : PMsg) : ParseM α :=
  pthrow (.parseError ps.lineNumber (colOf ps) m)

/-- `Parser.match`: try a matcher at the current position, advancing on
success. -/
def tryMatch {α} (m : List Char → Option (α × Nat)) : ParseM (Option α) :=
  fun st =>
    match st with
    | ⟨s, pos, lp, ln, li, il, iln, stk⟩ =>
      match m (s.drop pos) with
      | some (a, n) => .ok (some a) ⟨s, pos + n, lp, ln, li, il, iln, stk⟩
      | none => .ok none ⟨s, pos, lp, ln, li, il, iln, stk⟩

/-- `Parser.peek`: test a matcher without advancing. -/
def peekMatch {α} (m : List Char → Option (α × Nat)) : ParseM Bool := do
  let st ← pget
  pure (m (st.stream.drop st.pos)).isSome

/-! ### `Parser.scan` (lines 87-104) -/

/-- Scan the whitespace run `sp` for newlines the way `scan` does after
`re_newline.sub` (each of `\r\n`, `\r`, `\n` counts once): returns the
newline count and the index just past the last newline sequence. -/
def nlScan : List Char → Nat → Nat → Option Nat → Nat × Option Nat
  | [], _, count, last => (count, last)
  | '\r' :: '\n' :: r, i, count, _ => nlScan r (i + 2) (count + 1) (some (i + 2))
  | '\r' :: r, i, count, _ => nlScan r (i + 1) (count + 1) (some (i + 1))
  | '\n' :: r, i, count, _ => nlScan r (i + 1) (count + 1) (some (i + 1))
  | _ :: r, i, count, last => nlScan r (i + 1) count last

/-- `str.expandtabs(tab_width)` length of an indentation run (spaces
and tabs only). -/
def expandTabsLen (l : List Char) (w : Nat) : Nat :=
  l.foldl (fun col c => if c = '\t' then col + (w - col % w) else col + 1) 0

/-- One iteration of the `scan` loop: consume `re_spaces`, update line
bookkeeping, then try `re_comment`; the flag says whether a comment was
consumed (so the loop must run again). -/
def scanStep : PState → PState × Bool
  | ⟨s, pos, lp, ln, li, il, iln, stk⟩ =>
    let sp := (takeWhileSplit isSpaceChar (s.drop pos)).1
    let n := sp.length
    let nl := nlScan sp 0 0 none
    let pos1 := pos + n
    let ln1 := ln + nl.1
    let p2 := match nl.2 with
      | some ix => (pos + ix, expandTabsLen (sp.drop ix) tabWidth)
      | none => (lp, li)
    match matchCommentTok (s.drop pos1) with
    | some m => (⟨s, pos1 + m, p2.1, ln1, p2.2, il, iln, stk⟩, true)
    | none => (⟨s, pos1, p2.1, ln1, p2.2, il, iln, stk⟩, false)

def scanGo : PState → Nat → PState
  | st, 0 => st
  | st, fuel + 1 =>
    let p := scanStep st
    if p.2 then scanGo p.1 fuel else p.1

/-- `Parser.scan`.  The loop runs at most once per remaining character
(each comment consumes at least one), so `stream.length + 1` iterations
always suffice. -/
def scan : ParseM Unit :=
  pmodify fun st => scanGo st (st.stream.length + 1)

/-! ### Indentation bookkeeping (lines 106-118) -/

def setIndent : ParseM Unit :=
  fun st =>
    match st with
    | ⟨s, pos, lp, ln, li, _, _, stk⟩ =>
      .ok () ⟨s, pos, lp, ln, li, ((pos - lp : Nat) : Int), (ln : Int), stk⟩

def pushIndent : ParseM Unit :=
  fun st =>
    match st with
    | ⟨s, pos, lp, ln, li, il, iln, stk⟩ =>
      .ok () ⟨s, pos, lp, ln, li, il, iln, (il, iln) :: stk⟩

def popIndent : ParseM Unit :=
  fun st =>
    match st with
    | ⟨s, pos, lp, ln, li, _, _, (il, iln) :: rest⟩ =>
      .ok () ⟨s, pos, lp, ln, li, il, iln, rest⟩
    | ⟨_, _, _, _, _, _, _, []⟩ => .err .popEmptyStack

/-- `Parser.has_more_tokens`: a token is available iff there is input
left and either `column > indent_level` or we are still on the line
where the indent level was set. -/
def hasMoreTokens (st : PState) : Bool :=
  st.pos < st.stream.length &&
    (((st.pos - st.linePos : Nat) : Int) > st.indentLevel
      || (st.lineNumber : Int) = st.indentLine)

/-- `Parser.expr_token`. -/
def exprToken {α} (m : List Char → Option (α × Nat)) : ParseM (Option α) := do
  scan
  let st ← pget
  if hasMoreTokens st then tryMatch m else pure none

/-- `Parser.token`. -/
def tokenM {α} (m : List Char → Option (α × Nat)) : ParseM (Option α) := do
  scan
  tryMatch m

/-- `Parser.expect_token`. -/
def expectToken {α} (m : List Char → Option (α × Nat)) (msg : PMsg) :
    ParseM α := do
  match ← tokenM m with
  | some a => pure a
  | none => perror msg

/-! ### Names, signatures (lines 149-181) -/

/-- Modelled from the spec: `reserved_names` is defined in `ome/ast.py`,
which is not under `src/`.  Per §4.2 of the spec, reserved names (e.g.
`self`, `true`, `false`) are rejected where a binder is expected and
produce the corresponding built-in reference in expression position. -/
def reservedNames : List (List Char) :=
  ["self".toList, "true".toList, "false".toList]

/-- Modelled from the spec: `MAX_ARRAY_SIZE` is defined in
`ome/constants.py`, which is not under `src/`; the spec only says the
bound is an implementation-defined constant. -/
def maxArraySize : Nat := 1024

/-- `Parser.check_name`: the error is raised at the *current* position
(`self.error`), not at the saved parse state. -/
def checkName (name : List Char) (_ps : PState) : ParseM (List Char) := do
  if name ∈ reservedNames then perror .reservedName else pure name

/-- `Parser.argument_name` (always called with the default message). -/
def argumentName : ParseM (List Char) := do
  scan
  if ← peekMatch matchKeywordTok then perror .expectedArgumentName
  expectToken matchArgNameTok .expectedArgumentName

/-- `Parser.check_num_params`: errors at the supplied parse state. -/
def checkNumParams (n : Nat) (ps : PState) : ParseM Unit := do
  if n ≥ 16 then perrorAt ps .tooManyParameters else pure ()

def sigCommaLoop : Nat → List Char → List (List Char) →
    ParseM (List Char × List (List Char))
  | 0, _, _ => pthrow .outOfFuel
  | fuel + 1, symbol, args => do
    match ← tokenM (matchLitTok [',']) with
    | none => pure (symbol, args)
    | some _ => do
      let a ← argumentName
      sigCommaLoop fuel (symbol ++ [',']) (args ++ [a])

def sigKeywordLoop : Nat → List Char → List (List Char) →
    ParseM (List Char × List (List Char))
  | 0, _, _ => pthrow .outOfFuel
  | fuel + 1, symbol, args => do
    match ← tokenM matchKeywordTok with
    | none => pure (symbol, args)
    | some part => do
      if part.head? = some '~' ∧ symbol ≠ [] then perror .expectedKeyword
      let a ← argumentName
      let p ← sigCommaLoop fuel (symbol ++ part) (args ++ [a])
      sigKeywordLoop fuel p.1 p.2

/-- `Parser.signature`. -/
def signature (fuel : Nat) : ParseM (List Char × List (List Char)) := do
  let p ← sigKeywordLoop fuel [] []
  let symbol ←
    if p.1 = [] then do
      let ps ← pget
      let m ← expectToken matchNameTok .expectedNameOrKeyword
      checkName m ps
    else pure p.1
  checkNumParams p.2.length (← pget)
  pure (symbol, p.2)

/-! ### The recursive-descent core (lines 183-363)

`Parser.statement_lines` is a Python generator; its loop is inlined at
each of its three consumers (`block`, `statements`, `array`), where
`prev` carries `prev_indent_line` and a `break` in the consumer's body
abandons the generator before its post-`yield` `';'` handling — exactly
as in the source.  All functions take fuel; `outOfFuel` never occurs on
the inputs used below. -/

mutual

/-- `Parser.block` (lines 198-241). -/
def pblock (fuel : Nat) : ParseM Node :=
  match fuel with
  | 0 => pthrow .outOfFuel
  | fuel + 1 => do
    pushIndent
    let t ← blockLocalsLoop fuel (-1) [] [] []
    let methods ← blockMethodsLoop fuel t.2.2 [] []
    popIndent
    scan
    let st ← pget
    if st.pos < st.stream.length ∧
        ¬ (matchLitTok ['}'] (st.stream.drop st.pos)).isSome then
      perror .expectedDeclarationOrEndOfBlock
    if t.2.1.isEmpty ∧ methods.isEmpty then
      pure Node.emptyBlock
    else
      let blk := Node.blockNode t.2.1 methods
      if t.1.isEmpty then pure blk
      else pure (Node.sequence (t.1 ++ [blk]))
termination_by structural fuel


/-- One iteration of the local-definition loop of `Parser.block`
(`statement_lines` plus the body at lines 205-221): returns `none` when
the generator stops or the body breaks out of the `for` (leaving the
accumulators as they are), and `some` with the updated
`(prev_indent_line, statements, slots, defined_symbols)` when the loop
continues. -/
def blockLocalsStep (fuel : Nat) (prev : Int) (stmts : List Node)
    (slots : List (List Char × Bool × Nat)) (defined : List (List Char)) :
    ParseM (Option (Int × List Node × List (List Char × Bool × Nat) × List (List Char))) :=
  match fuel with
  | 0 => pthrow .outOfFuel
  | fuel + 1 => do
  scan
  let st ← pget
  if (matchEndTok (st.stream.drop st.pos)).isSome ∨ st.pos ≥ st.stream.length then
    pure none
  else
    setIndent
    let st1 ← pget
    if (st1.lineNumber : Int) = prev then perror .expectedEndOfStatement
    scan
    if ← peekMatch matchKeywordTok then pure none
    else do
      let ps ← pget
      match ← tokenM matchNameTok with
      | none => pure none
      | some nm => do
        let name ← checkName nm ps
        if name ∈ defined then perrorAt ps .variableAlreadyDefined
        let a ← expectToken matchAssignTok .expectedAssign
        let isMutable : Bool := a == [':', '=']
        let v ← pexpr fuel
        let stmts2 := stmts ++ [Node.localVar name v]
        let slots2 := slots ++ [(name, isMutable, slots.length)]
        let defined2 := defined ++ [name]
          ++ (if isMutable then [name ++ [':']] else [])
        let semi ← tokenM (matchLitTok [';'])
        pure (some ((if semi.isSome then -1 else st1.indentLine),
          stmts2, slots2, defined2))
termination_by structural fuel

/-- The local-definition loop of `Parser.block`: iterate
`blockLocalsStep` until the generator stops or the body breaks out;
returns `(statements, slots, defined_symbols)`. -/
def blockLocalsLoop (fuel : Nat) (prev : Int) (stmts : List Node)
    (slots : List (List Char × Bool × Nat)) (defined : List (List Char)) :
    ParseM (List Node × List (List Char × Bool × Nat) × List (List Char)) :=
  match fuel with
  | 0 => pthrow .outOfFuel
  | fuel + 1 => do
    match ← blockLocalsStep fuel prev stmts slots defined with
    | some t => blockLocalsLoop fuel t.1 t.2.1 t.2.2.1 t.2.2.2
    | none => pure (stmts, slots, defined)
termination_by structural fuel

/-- The method loop of `Parser.block` (lines 222-230). -/
def blockMethodsLoop (fuel : Nat) (definedSyms definedMethods : List (List Char))
    (methods : List (List Char × List (List Char) × Node)) :
    ParseM (List (List Char × List (List Char) × Node)) :=
  match fuel with
  | 0 => pthrow .outOfFuel
  | fuel + 1 => do
    match ← tokenM (matchLitTok ['|']) with
    | none => pure methods
    | some _ => do
      let p ← signature fuel
      if p.1 ∈ definedMethods then perror .methodAlreadyDefined
      if p.1 ∈ definedSyms then perror .methodConflictsWithVariable
      let _ ← expectToken (matchLitTok ['|']) .expectedBar
      let body ← pstatements fuel
      blockMethodsLoop fuel definedSyms (definedMethods ++ [p.1])
        (methods ++ [(p.1, p.2, body)])
termination_by structural fuel


/-- `Parser.statements` (lines 265-273). -/
def pstatements (fuel : Nat) : ParseM Node :=
  match fuel with
  | 0 => pthrow .outOfFuel
  | fuel + 1 => do
    pushIndent
    let stmts ← stmtsLoop fuel (-1) []
    popIndent
    let bad := match stmts.getLast? with
      | none => true
      | some (Node.localVar _ _) => true
      | some _ => false
    if bad then perror .expectedStatementOrExpression
    match stmts with
    | [s] => pure s
    | _ => pure (Node.sequence stmts)
termination_by structural fuel


/-- The statement_lines loop of `Parser.statements`. -/
def stmtsLoop (fuel : Nat) (prev : Int) (acc : List Node) : ParseM (List Node) :=
  match fuel with
  | 0 => pthrow .outOfFuel
  | fuel + 1 => do
    scan
    let st ← pget
    if (matchEndTok (st.stream.drop st.pos)).isSome ∨ st.pos ≥ st.stream.length then
      pure acc
    else
      setIndent
      let st1 ← pget
      if (st1.lineNumber : Int) = prev then perror .expectedEndOfStatement
      let s ← pstatement fuel
      let semi ← tokenM (matchLitTok [';'])
      stmtsLoop fuel (if semi.isSome then -1 else st1.indentLine) (acc ++ [s])
termination_by structural fuel


/-- `Parser.statement` (lines 249-263). -/
def pstatement (fuel : Nat) : ParseM Node :=
  match fuel with
  | 0 => pthrow .outOfFuel
  | fuel + 1 => do
    let st0 ← pget
    let maybeAssign := (matchNameTok (st0.stream.drop st0.pos)).isSome
    let ps ← pget
    let stmt ← pexpr fuel
    match ← tokenM matchAssignTok with
    | none => pure stmt
    | some a => do
      if a = [':', '='] then perror .mutableVariablesOnlyInBlocks
      match stmt with
      | Node.send Node.pynone symbol _args _sps => do
        if ¬ maybeAssign then perrorAt ps .assignmentLhsMustBeName
        if symbol.head? = some '~' then perrorAt ps .localVariablesCannotBePrivate
        let name ← checkName symbol ps
        let v ← pexpr fuel
        pure (Node.localVar name v)
      | _ => perrorAt ps .assignmentLhsMustBeName
termination_by structural fuel


/-- `Parser.array` (lines 275-283). -/
def parray (fuel : Nat) : ParseM Node :=
  match fuel with
  | 0 => pthrow .outOfFuel
  | fuel + 1 => do
    pushIndent
    let elems ← arrayLoop fuel (-1) []
    popIndent
    if elems.length > maxArraySize then perror .arraySizeTooBig
    pure (Node.arrayLit elems)
termination_by structural fuel


/-- The statement_lines loop of `Parser.array`. -/
def arrayLoop (fuel : Nat) (prev : Int) (acc : List Node) : ParseM (List Node) :=
  match fuel with
  | 0 => pthrow .outOfFuel
  | fuel + 1 => do
    scan
    let st ← pget
    if (matchEndTok (st.stream.drop st.pos)).isSome ∨ st.pos ≥ st.stream.length then
      pure acc
    else
      setIndent
      let st1 ← pget
      if (st1.lineNumber : Int) = prev then perror .expectedEndOfStatement
      let e ← pexpr fuel
      let semi ← tokenM (matchLitTok [';'])
      arrayLoop fuel (if semi.isSome then -1 else st1.indentLine) (acc ++ [e])
termination_by structural fuel


/-- `Parser.expr` (lines 285-310). -/
def pexpr (fuel : Nat) : ParseM Node :=
  match fuel with
  | 0 => pthrow .outOfFuel
  | fuel + 1 => do
    let ps ← pget
    scan
    let e0 ←
      if ← peekMatch matchKeywordTok then pure Node.pynone
      else punaryexpr fuel
    let kwps ← pget
    let t ← exprKwLoop fuel e0 kwps [] []
    if t.2.2.isEmpty then pure t.1
    else do
      checkNumParams t.2.2.length ps
      pure (Node.send t.1 t.2.1 t.2.2 (some (ps.lineNumber, colOf ps)))
termination_by structural fuel


/-- The keyword loop of `Parser.expr`; `kwps` is `kw_parse_state`. -/
def exprKwLoop (fuel : Nat) (e : Node) (kwps : PState) (symbol : List Char)
    (args : List Node) : ParseM (Node × List Char × List Node) :=
  match fuel with
  | 0 => pthrow .outOfFuel
  | fuel + 1 => do
    match ← exprToken matchKeywordTok with
    | none => pure (e, symbol, args)
    | some part => do
      if part.head? = some '~' then do
        if symbol ≠ [] then perrorAt kwps .expectedKeyword
        if ¬ e.isNone then perrorAt kwps .privateMessageToExplicitReceiver
      let a ← punaryexpr fuel
      let p ← exprCommaLoop fuel (symbol ++ part) (args ++ [a])
      let kwps' ← pget
      exprKwLoop fuel e kwps' p.1 p.2
termination_by structural fuel


/-- The comma loop of `Parser.expr`. -/
def exprCommaLoop (fuel : Nat) (symbol : List Char) (args : List Node) :
    ParseM (List Char × List Node) :=
  match fuel with
  | 0 => pthrow .outOfFuel
  | fuel + 1 => do
    match ← exprToken (matchLitTok [',']) with
    | none => pure (symbol, args)
    | some _ => do
      let a ← punaryexpr fuel
      exprCommaLoop fuel (symbol ++ [',']) (args ++ [a])
termination_by structural fuel


/-- `Parser.unaryexpr` (lines 312-326). -/
def punaryexpr (fuel : Nat) : ParseM Node :=
  match fuel with
  | 0 => pthrow .outOfFuel
  | fuel + 1 => do
    let e ← patom fuel
    unaryLoop fuel e
termination_by structural fuel


/-- The unary-send loop of `Parser.unaryexpr`; note that unary sends
are built without a parse state (`Send(expr, name, [])`). -/
def unaryLoop (fuel : Nat) (e : Node) : ParseM Node :=
  match fuel with
  | 0 => pthrow .outOfFuel
  | fuel + 1 => do
    scan
    if ← peekMatch matchKeywordTok then pure e
    else do
      let ps ← pget
      match ← exprToken matchNameTok with
      | none => pure e
      | some name => do
        if name.head? = some '~' then perrorAt ps .privateMessageToExplicitReceiver
        unaryLoop fuel (Node.send e name [] none)
termination_by structural fuel


/-- `Parser.atom` (lines 328-363). -/
def patom (fuel : Nat) : ParseM Node :=
  match fuel with
  | 0 => pthrow .outOfFuel
  | fuel + 1 => do
    match ← exprToken (matchLitTok ['(']) with
    | some _ => do
      let s ← pstatements fuel
      let _ ← expectToken (matchLitTok [')']) .expectedCloseParen
      pure s
    | none =>
      match ← exprToken (matchLitTok ['{']) with
      | some _ => do
        let b ← pblock fuel
        let _ ← expectToken (matchLitTok ['}']) .expectedCloseBrace
        pure b
      | none =>
        match ← exprToken (matchLitTok ['[']) with
        | some _ => do
          let a ← parray fuel
          let _ ← expectToken (matchLitTok [']']) .expectedCloseBracket
          pure a
        | none => do
          let ps ← pget
          match ← exprToken matchNameTok with
          | some name =>
            if name ∈ reservedNames then pure (Node.builtinRef name)
            else pure (Node.send Node.pynone name [] (some (ps.lineNumber, colOf ps)))
          | none =>
            match ← exprToken matchNumberTok with
            | some g =>
              match atomNumber g.1 g.2.1 g.2.2 with
              | some p => pure (Node.number p.1 p.2)
              | none => pthrow .valueError
            | none =>
              match ← exprToken matchStringTok with
              | some content => pure (Node.strLit content)
              | none => perror .expectedExpression
termination_by structural fuel

end

/-- `Parser.toplevel` (lines 243-247). -/
def ptoplevel (fuel : Nat) : ParseM Node := do
  let b ← pblock fuel
  let st ← pget
  if st.pos < st.stream.length then perror .expectedDeclarationOrEndOfFile
  pure b

/-- Parse a whole source file, as `Parser(source).toplevel()` does. -/
def parseToplevel (src : List Char) (fuel : Nat) : PResult Node :=
  ptoplevel fuel (initState src)

/-- Parse a single expression, as `Parser(source).expr()` does. -/
def parseExpr (src : List Char) (fuel : Nat) : PResult Node :=
  pexpr fuel (initState src)

/-- The parsed node of a successful toplevel parse. -/
def parsedToplevel (src : List Char) (fuel : Nat) : Option Node :=
  match parseToplevel src fuel with
  | .ok n _ => some n
  | .err _ => none

/-- The parsed node of a successful expression parse. -/
def parsedExpr (src : List Char) (fuel : Nat) : Option Node :=
  match parseExpr src fuel with
  | .ok n _ => some n
  | .err _ => none

/-! ## Concrete sources

The sources used by the concrete parser runs below:

* `srcAligned`  — `" a=1\n b=2"`: a top-level block with two local
  definitions, both starting at column 1;
* `srcShifted`  — `" a=1\nb=2"`: the same with the second statement
  moved one column to the left (column 0);
* `srcLocalDef` — `"x=1"`: a top-level block with one local definition
  and no methods.
-/

def srcAligned : List Char := " a=1\n b=2".toList

def srcShifted : List Char := " a=1\nb=2".toList

def srcLocalDef : List Char := "x=1".toList

/-- States reached while parsing `srcAligned`. -/
def alSt (pos lp ln li : Nat) (il iln : Int) (stk : List (Int × Int)) : PState :=
  ⟨srcAligned, pos, lp, ln, li, il, iln, stk⟩

/-- States reached while parsing `srcShifted`. -/
def shSt (pos lp ln li : Nat) (il iln : Int) (stk : List (Int × Int)) : PState :=
  ⟨srcShifted, pos, lp, ln, li, il, iln, stk⟩

/-- States reached while parsing `srcLocalDef`. -/
def ldSt (pos lp ln li : Nat) (il iln : Int) (stk : List (Int × Int)) : PState :=
  ⟨srcLocalDef, pos, lp, ln, li, il, iln, stk⟩

def locals1 : List Node := [Node.localVar ['a'] (Node.number 1 0)]

def slots1 : List (List Char × Bool × Nat) := [(['a'], false, 0)]

def defined1 : List (List Char) := [['a']]

def locals2 : List Node :=
  [Node.localVar ['a'] (Node.number 1 0), Node.localVar ['b'] (Node.number 2 0)]

def slots2 : List (List Char × Bool × Nat) := [(['a'], false, 0), (['b'], false, 1)]

def defined2 : List (List Char) := [['a'], ['b']]

/-- The AST of both `srcAligned` and `srcShifted`: two local variables
followed by the block that owns them, wrapped in a `Sequence`. -/
def astAligned : Node := Node.sequence (locals2 ++ [Node.blockNode slots2 []])

def astLocalDef : Node :=
  Node.sequence [Node.localVar ['x'] (Node.number 1 0),
    Node.blockNode [(['x'], false, 0)] []]


/-! ## `Program.__init__`: the main-method check (compiler.py lines 99-103) -/

/-- The shape of the resolved top-level expression as the check at
compiler.py lines 99-103 inspects it: a `Sequence` of statements, or a
block carrying its defined symbols.  `symbols` is modelled from the
spec: `Block.symbols` is defined in `ome/ast.py`, which is not under
`src/`; per §3 of the spec it holds the block's slot names, setter
names and method symbols. -/
inductive TLExpr where
  | block (symbols : List String)
  | seq (statements : List TLExpr)

inductive CompErr where
  | noMainMethod
  | attributeError
deriving Repr, DecidableEq

/-- Lines 99-103 of `compiler.py`:

```
toplevel_block = ast.expr
if isinstance(toplevel_block, Sequence):
    toplevel_block = self.toplevel_block.statements[-1]
if 'main' not in toplevel_block.symbols:
    self.error('no main method defined')
```

In the `Sequence` branch the code reads `self.toplevel_block`, an
attribute `Program` never assigns (the local variable is named
`toplevel_block`), so Python raises `AttributeError` before any `main`
check can happen; the embedding records that as `attributeError`. -/
def checkMain (expr : TLExpr) : Except CompErr Unit :=
  match expr with
  | .seq _ => .error .attributeError
  | .block symbols =>
    if "main" ∈ symbols then .ok () else .error .noMainMethod

/-! ## `Program.find_used_methods` (compiler.py lines 142-158) -/

/-- What `find_used_methods` reads off a `Send` after resolution:
its symbol, whether `send.receiver` is set, and the tag of
`send.receiver_block` when that is set. -/
structure CSend where
  symbol : String
  hasReceiver : Bool
  receiverBlockTag : Option Nat
deriving Repr, DecidableEq

/-- What it reads off a built-in method of the target. -/
structure BMethod where
  tagName : String
  symbol : String
  sentMessages : List String
deriving Repr, DecidableEq

/-- Lines 143-145: `sent_messages` starts as `{main, string}` plus the
symbol of every send with a receiver and no statically known receiver
block.  (A Python set used only through membership is embedded as the
list of inserted elements.) -/
def initialSent (sends : List CSend) : List String :=
  "main" :: "string" ::
    (sends.filter fun s => s.hasReceiver && s.receiverBlockTag.isNone).map (·.symbol)

/-- Lines 147-149 and 156-158: the `(tag, symbol)` pairs of sends with
a statically known receiver block whose symbol is not in `sent`. -/
def calledMethods (sends : List CSend) (sent : List String) : List (Nat × String) :=
  sends.filterMap fun s =>
    match s.receiverBlockTag with
    | some t => if s.symbol ∈ sent then none else some (t, s.symbol)
    | none => none

/-- Lines 151-154: one pass over `target.builtin_methods` in list
order; a method with non-empty `sent_messages` whose symbol is already
in the accumulated set (or whose `(tag, symbol)` is in
`called_methods`) contributes its `sent_messages`. -/
def builtinPass (tags : String → Nat) (methods : List BMethod)
    (sent : List String) (called : List (Nat × String)) : List String :=
  methods.foldl
    (fun acc m =>
      if m.sentMessages ≠ [] ∧
          (m.symbol ∈ acc ∨ (tags m.tagName, m.symbol) ∈ called)
      then acc ++ m.sentMessages else acc)
    sent

/-- `Program.find_used_methods`: returns the final
`(sent_messages, called_methods)`. -/
def findUsedMethods (tags : String → Nat) (sends : List CSend)
    (methods : List BMethod) : List String × List (Nat × String) :=
  let sent0 := initialSent sends
  let called0 := calledMethods sends sent0
  let sent1 := builtinPass tags methods sent0 called0
  (sent1, calledMethods sends sent1)

/-! ## `IdAllocator.allocate_ids` (compiler.py lines 43-79) -/

/-- What `allocate_ids` reads off a block. -/
structure CBlock where
  isConstant : Bool
deriving Repr, DecidableEq

/-- The two assignment loops of `allocate_ids` share this shape: walk
the block list, give the next counter value to every block selected by
`pred` (the first loop selects `not block.is_constant` at lines 56-59,
the second `block.is_constant` at lines 71-75).  Returns the
assignment, position by position, and the final counter. -/
def assignIdsBy (pred : CBlock → Bool) : List CBlock → Nat → List (Option Nat) × Nat
  | [], n => ([], n)
  | b :: rest, n =>
    if pred b then
      let r := assignIdsBy pred rest (n + 1)
      (some n :: r.1, r.2)
    else
      let r := assignIdsBy pred rest n
      (none :: r.1, r.2)

structure IdAllocResult where
  pointerTagId : Nat
  blockTags : List (Option Nat)
  blockConstantIds : List (Option Nat)
  lastTagId : Nat
  lastConstantId : Nat
deriving Repr, DecidableEq

/-- `IdAllocator.allocate_ids` with the opaque/pointer/constant name
lists abstracted to their lengths (the names only feed `self.tags`,
which the claims do not touch) and `MAX_TAG` / `MAX_CONSTANT_TAG` (from
`ome/constants.py`, not under `src/`) as parameters.  `none` models the
`OmeError` raised on exhaustion.  A constant block's tag is
`constant_to_tag` of its constant id; only the id is recorded here. -/
def allocateIds (numOpaque numPointer numConstants maxTag maxConstantTag : Nat)
    (blocks : List CBlock) : Option IdAllocResult :=
  let pointerTagId := numOpaque
  let t := assignIdsBy (fun b => !b.isConstant) blocks (numOpaque + numPointer)
  if t.2 > maxTag then none
  else
    let c := assignIdsBy (·.isConstant) blocks numConstants
    if c.2 > maxConstantTag then none
    else some ⟨pointerTagId, t.1, c.1, t.2, c.2⟩

/-! ## `Program.compile_traceback_info` (compiler.py lines 117-140) -/

/-- The fields of a saved parse state that
`compile_traceback_info` reads. -/
structure TBParseState where
  streamName : String
  lineNumber : Nat
  column : Nat
  currentLine : List Char
deriving Repr, DecidableEq

/-- What the loop reads off a `Send`: its symbol, the symbol of the
method containing it (`send.method.symbol`), and its optional parse
state. -/
structure TBSend where
  symbol : List Char
  methodSymbol : String
  parseState : Option TBParseState
deriving Repr, DecidableEq

structure TraceBackInfo where
  index : Nat
  methodName : String
  streamName : String
  sourceLine : List Char
  lineNumber : Nat
  column : Int
  underline : Nat
deriving Repr, DecidableEq

/-- Python `str.strip` whitespace (`string.whitespace` characters). -/
def isPyWhitespace (c : Char) : Bool :=
  c = ' ' || c = '\t' || c = '\n' || c = '\r' || c = '\x0b' || c = '\x0c'

def pyRstrip (s : List Char) : List Char :=
  (s.reverse.dropWhile isPyWhitespace).reverse

def pyLstrip (s : List Char) : List Char := s.dropWhile isPyWhitespace

/-- Python `str.find`: first index of `c`, or `-1`. -/
def strFind (s : List Char) (c : Char) : Int :=
  match s.findIdx? (· = c) with
  | some i => (i : Int)
  | none => -1

/-- Lines 128-130: `underline = send.symbol.find(':') + 1`, and when
that is less than 1, `max(len(send.symbol), 1)`. -/
def underlineOf (symbol : List Char) : Nat :=
  let u : Int := strFind symbol ':' + 1
  if u < 1 then max symbol.length 1 else u.toNat

/-- Lines 125-138: build one `TraceBackInfo` for a send at a new key;
`index` is the current size of the traceback table. -/
def mkTraceBackInfo (send : TBSend) (ps : TBParseState) (index : Nat) :
    TraceBackInfo :=
  let lineUnstripped := pyRstrip ps.currentLine
  let line := pyLstrip lineUnstripped
  ⟨index, send.methodSymbol, ps.streamName, line, ps.lineNumber,
    (ps.column : Int) - ((lineUnstripped.length - line.length : Nat) : Int),
    underlineOf send.symbol⟩

abbrev TBKey := String × Nat × Nat

def tbKey (ps : TBParseState) : TBKey :=
  (ps.streamName, ps.lineNumber, ps.column)

/-- The loop of `Program.compile_traceback_info`, one send at a time:
`table` is the traceback table so far (an association list in
insertion order — a Python dict keyed by `(stream_name, line, column)`)
and `out` pairs each processed send with the `traceback_info` assigned
to it (`none` when it has no parse state). -/
def tbGo (table : List (TBKey × TraceBackInfo))
    (out : List (TBSend × Option TraceBackInfo)) :
    List TBSend → List (TBKey × TraceBackInfo) × List (TBSend × Option TraceBackInfo)
  | [] => (table, out)
  | send :: rest =>
    match send.parseState with
    | none => tbGo table (out ++ [(send, none)]) rest
    | some ps =>
      match table.lookup (tbKey ps) with
      | some tb => tbGo table (out ++ [(send, some tb)]) rest
      | none =>
        let tb := mkTraceBackInfo send ps table.length
        tbGo (table ++ [(tbKey ps, tb)]) (out ++ [(send, some tb)]) rest

/-- `Program.compile_traceback_info` over the whole `send_list`. -/
def compileTracebackInfo (sends : List TBSend) :
    List (TBKey × TraceBackInfo) × List (TBSend × Option TraceBackInfo) :=
  tbGo [] [] sends

/-- The first send in `send_list` order whose parse state has key `k`. -/
def firstSendWithKey (sends : List TBSend) (k : TBKey) : Option TBSend :=
  sends.find? fun s =>
    match s.parseState with
    | some ps => tbKey ps == k
    | none => false

/-- The loop invariant of `compile_traceback_info` after some prefix
`processed` of the send list has been handled: every table entry was
built from the first processed send carrying its key, every processed
send with a parse state has its key in the table, and every processed
send was attached `none` (no parse state) or exactly the table entry at
its key. -/
abbrev TbInv (processed : List TBSend) (table : List (TBKey × TraceBackInfo))
    (out : List (TBSend × Option TraceBackInfo)) : Prop :=
  (∀ e ∈ table, ∃ s ps, firstSendWithKey processed e.1 = some s ∧
      s.parseState = some ps ∧ e.2 = mkTraceBackInfo s ps e.2.index) ∧
  (∀ s ∈ processed, ∀ ps, s.parseState = some ps →
      (table.lookup (tbKey ps)).isSome) ∧
  (∀ p ∈ out,
      (p.1.parseState = none → p.2 = none) ∧
      (∀ ps, p.1.parseState = some ps →
        ∃ tb, p.2 = some tb ∧ table.lookup (tbKey ps) = some tb))

/-! ## `Program.emit_code_declarations` (compiler.py lines 209-223) -/

/-- Modelled from the spec (§3, §8 item 3): `symbol_arity` lives in
`ome/labels.py`, which is not under `src/`; the number of colons plus
commas equals the argument count, and emitted arity counts `self`. -/
def symbolArity (symbol : String) : Nat :=
  symbol.toList.count ':' + symbol.toList.count ',' + 1

/-- One emitted declaration, abstracted from the target.  Modelled from
the spec: `Target.emit_declaration` / `emit_lookup_declaration` and the
label formatting of `ome/labels.py` are not under `src/`; a declaration
token records exactly the data handed to the target emitter, in
emission order. -/
inductive DeclToken where
  | toplevel
  | methodDecl (tag : Nat) (symbol : String) (arity : Nat)
  | messageDecl (symbol : String) (arity : Nat)
  | lookupDecl (symbol : String) (arity : Nat)
deriving Repr, DecidableEq

/-- `sorted(...)` of a Python set whose insertion order was `l`:
the distinct elements in ascending order. -/
def sortedSet {α : Type} [LinearOrder α] (l : List α) : List α :=
  List.insertionSort (· ≤ ·) l.dedup

/-- `Program.emit_code_declarations`: `code_table` is the list of
`(symbol, tags-with-a-method)` pairs; `sentMessages` is the insertion
order of the `sent_messages` set.  Lines 209-223 collect
`method_decls` and `message_decls` as sets and emit each `sorted`. -/
def emitCodeDeclarations (codeTable : List (String × List Nat))
    (sentMessages : List String) : List DeclToken :=
  let methodDecls : List (String × Nat) :=
    codeTable.flatMap fun e => e.2.map fun tag => (e.1, tag)
  let messageDecls : List String := sentMessages ++ codeTable.map (·.1)
  [DeclToken.toplevel]
    ++ (sortedSet (methodDecls.map toLex)).map (fun p =>
        DeclToken.methodDecl (ofLex p).2 (ofLex p).1 (symbolArity (ofLex p).1))
    ++ (sortedSet messageDecls).map (fun s => DeclToken.messageDecl s (symbolArity s))
    ++ (sortedSet messageDecls).map (fun s => DeclToken.lookupDecl s (symbolArity s))

/-- `Program.emit_data` line 205: traceback entries are emitted sorted
by their `index`. -/
def sortTracebackEntries (l : List TraceBackInfo) : List TraceBackInfo :=
  List.insertionSort (fun a b => a.index ≤ b.index) l

instance tbIndexLeTotal : IsTotal TraceBackInfo (fun a b => a.index ≤ b.index) :=
  ⟨fun a b => Nat.le_total a.index b.index⟩

instance tbIndexLeTrans : IsTrans TraceBackInfo (fun a b => a.index ≤ b.index) :=
  ⟨fun _ _ _ => Nat.le_trans⟩

/-! ## `MethodCodeBuilder` (builder.py lines 12-23) -/

/-- The counters of `MethodCodeBuilder` (the instruction list and data
table do not matter to the claims). -/
structure MethodCodeBuilder where
  numArgs : Nat
  numLocals : Nat
deriving Repr, DecidableEq

/-- `MethodCodeBuilder.__init__` before the `dest` allocation:
`self.num_args = num_args + 1` (self is arg 0) and
`self.num_locals = num_args + num_locals + 1` (both from the
constructor parameters).  `self.dest = self.add_temp()` is the first
`add_temp` call below. -/
def mkBuilder (numArgs numLocals : Nat) : MethodCodeBuilder :=
  ⟨numArgs + 1, numArgs + numLocals + 1⟩

/-- `MethodCodeBuilder.add_temp`: return the current `num_locals` and
increment it. -/
def addTemp (b : MethodCodeBuilder) : MethodCodeBuilder × Nat :=
  (⟨b.numArgs, b.numLocals + 1⟩, b.numLocals)

/-- The builder state after `k` calls to `add_temp` on
`mkBuilder numArgs numLocals`. -/
def builderAfter (numArgs numLocals k : Nat) : MethodCodeBuilder :=
  ⟨numArgs + 1, numArgs + numLocals + 1 + k⟩

/-- The temp returned by the `(k+1)`-st call to `add_temp`. -/
def tempAt (numArgs numLocals k : Nat) : Nat := numArgs + numLocals + 1 + k

/-! ## The string-literal value (spec-modelled) -/

/-- A character that needs no care inside a string literal body:
not a quote, backslash or newline. -/
def plainChar (c : Char) : Bool :=
  c ≠ '\'' && c ≠ '\\' && c ≠ '\r' && c ≠ '\n'

/-- Modelled from the spec: the `String` AST node lives in
`ome/ast.py`, which is not under `src/`.  The parser stores the raw
regex group (`String(m.group(1))`); per §4.2 of the spec the escape
`\'` denotes a single-quote character in the string's value, and there
are no other escapes, so the value decodes `\'` pairs and leaves every
other character alone. -/
def stringNodeValue : List Char → List Char
  | '\\' :: '\'' :: r => '\'' :: stringNodeValue r
  | c :: r => c :: stringNodeValue r
  | [] => []

/-! ## Concrete runs of the parser

Evaluating a whole-file parse inside a proof is done in chunks: a
ground lemma per loop iteration (each proved by `rfl`), glued together
by rewriting with the two `run_*` lemmas below.  The sources used:

* `srcAligned`  — `" a=1\n b=2"`: a top-level block with two local
  definitions, both starting at column 1;
* `srcShifted`  — `" a=1\nb=2"`: the same with the second statement
  moved one column to the left (column 0);
* `srcLocalDef` — `"x=1"`: a top-level block with one local definition
  and no methods.
-/

/-- Running `m >>= f` applies `m` and then `f`. -/
theorem run_bind {α β} (m : ParseM α) (f : α → ParseM β) (st : PState) :
    (m >>= f) st = match m st with
      | .ok a st2 => f a st2
      | .err e => .err e := rfl

/-- Running `pure a` leaves the state unchanged. -/
theorem run_pure {α} (a : α) (st : PState) :
    (pure a : ParseM α) st = .ok a st := rfl

/-! ### `srcAligned` (statements at columns 1 and 1) -/

theorem al_push : pushIndent (initState srcAligned) =
    .ok () (alSt 0 0 1 0 (-1) (-1) [((-1:Int),(-1:Int))]) := rfl

set_option maxHeartbeats 800000 in
theorem al_step1 :
    blockLocalsStep 12 (-1) [] [] [] (alSt 0 0 1 0 (-1) (-1) [((-1:Int),(-1:Int))]) =
    .ok (some (1, locals1, slots1, defined1)) (alSt 6 5 2 1 1 1 [((-1:Int),(-1:Int))]) := rfl

set_option maxHeartbeats 800000 in
theorem al_step2 :
    blockLocalsStep 11 1 locals1 slots1 defined1 (alSt 6 5 2 1 1 1 [((-1:Int),(-1:Int))]) =
    .ok (some (2, locals2, slots2, defined2)) (alSt 9 5 2 1 1 2 [((-1:Int),(-1:Int))]) := rfl

set_option maxHeartbeats 800000 in
theorem al_step3 :
    blockLocalsStep 10 2 locals2 slots2 defined2 (alSt 9 5 2 1 1 2 [((-1:Int),(-1:Int))]) =
    .ok none (alSt 9 5 2 1 1 2 [((-1:Int),(-1:Int))]) := rfl

set_option maxHeartbeats 800000 in
theorem al_methods : blockMethodsLoop 13 defined2 [] []
    (alSt 9 5 2 1 1 2 [((-1:Int),(-1:Int))]) =
    .ok [] (alSt 9 5 2 1 1 2 [((-1:Int),(-1:Int))]) := rfl

theorem al_pop : popIndent (alSt 9 5 2 1 1 2 [((-1:Int),(-1:Int))]) =
    .ok () (alSt 9 5 2 1 (-1) (-1) []) := rfl

theorem al_scanF : scan (alSt 9 5 2 1 (-1) (-1) []) =
    .ok () (alSt 9 5 2 1 (-1) (-1) []) := rfl

set_option maxHeartbeats 400000 in
theorem al_loop3 :
    blockLocalsLoop 11 2 locals2 slots2 defined2 (alSt 9 5 2 1 1 2 [((-1:Int),(-1:Int))]) =
    .ok (locals2, slots2, defined2) (alSt 9 5 2 1 1 2 [((-1:Int),(-1:Int))]) := by
  conv_lhs => rw [blockLocalsLoop.eq_def]
  simp only [run_bind, run_pure, al_step3]

set_option maxHeartbeats 400000 in
theorem al_loop2 :
    blockLocalsLoop 12 1 locals1 slots1 defined1 (alSt 6 5 2 1 1 1 [((-1:Int),(-1:Int))]) =
    .ok (locals2, slots2, defined2) (alSt 9 5 2 1 1 2 [((-1:Int),(-1:Int))]) := by
  conv_lhs => rw [blockLocalsLoop.eq_def]
  simp only [run_bind, run_pure, al_step2, al_loop3]

set_option maxHeartbeats 400000 in
theorem al_loop1 :
    blockLocalsLoop 13 (-1) [] [] [] (alSt 0 0 1 0 (-1) (-1) [((-1:Int),(-1:Int))]) =
    .ok (locals2, slots2, defined2) (alSt 9 5 2 1 1 2 [((-1:Int),(-1:Int))]) := by
  conv_lhs => rw [blockLocalsLoop.eq_def]
  simp only [run_bind, run_pure, al_step1, al_loop2]

set_option maxHeartbeats 800000 in
theorem al_block : pblock 14 (initState srcAligned) =
    .ok astAligned (alSt 9 5 2 1 (-1) (-1) []) := by
  conv_lhs => rw [pblock.eq_def]
  simp only [run_bind, run_pure, al_push, al_loop1, al_methods, al_pop,
    al_scanF, pget]
  rfl

set_option maxHeartbeats 400000 in
theorem al_top : parseToplevel srcAligned 14 =
    .ok astAligned (alSt 9 5 2 1 (-1) (-1) []) := by
  rw [parseToplevel, ptoplevel]
  simp only [run_bind, run_pure, pget, al_block]
  rfl

/-! ### `srcShifted` (second statement moved one column left) -/

theorem sh_push : pushIndent (initState srcShifted) =
    .ok () (shSt 0 0 1 0 (-1) (-1) [((-1:Int),(-1:Int))]) := rfl

set_option maxHeartbeats 800000 in
theorem sh_step1 :
    blockLocalsStep 12 (-1) [] [] [] (shSt 0 0 1 0 (-1) (-1) [((-1:Int),(-1:Int))]) =
    .ok (some (1, locals1, slots1, defined1)) (shSt 5 5 2 0 1 1 [((-1:Int),(-1:Int))]) := rfl

set_option maxHeartbeats 800000 in
theorem sh_step2 :
    blockLocalsStep 11 1 locals1 slots1 defined1 (shSt 5 5 2 0 1 1 [((-1:Int),(-1:Int))]) =
    .ok (some (2, locals2, slots2, defined2)) (shSt 8 5 2 0 0 2 [((-1:Int),(-1:Int))]) := rfl

set_option maxHeartbeats 800000 in
theorem sh_step3 :
    blockLocalsStep 10 2 locals2 slots2 defined2 (shSt 8 5 2 0 0 2 [((-1:Int),(-1:Int))]) =
    .ok none (shSt 8 5 2 0 0 2 [((-1:Int),(-1:Int))]) := rfl

set_option maxHeartbeats 800000 in
theorem sh_methods : blockMethodsLoop 13 defined2 [] []
    (shSt 8 5 2 0 0 2 [((-1:Int),(-1:Int))]) =
    .ok [] (shSt 8 5 2 0 0 2 [((-1:Int),(-1:Int))]) := rfl

theorem sh_pop : popIndent (shSt 8 5 2 0 0 2 [((-1:Int),(-1:Int))]) =
    .ok () (shSt 8 5 2 0 (-1) (-1) []) := rfl

theorem sh_scanF : scan (shSt 8 5 2 0 (-1) (-1) []) =
    .ok () (shSt 8 5 2 0 (-1) (-1) []) := rfl

set_option maxHeartbeats 400000 in
theorem sh_loop3 :
    blockLocalsLoop 11 2 locals2 slots2 defined2 (shSt 8 5 2 0 0 2 [((-1:Int),(-1:Int))]) =
    .ok (locals2, slots2, defined2) (shSt 8 5 2 0 0 2 [((-1:Int),(-1:Int))]) := by
  conv_lhs => rw [blockLocalsLoop.eq_def]
  simp only [run_bind, run_pure, sh_step3]

set_option maxHeartbeats 400000 in
theorem sh_loop2 :
    blockLocalsLoop 12 1 locals1 slots1 defined1 (shSt 5 5 2 0 1 1 [((-1:Int),(-1:Int))]) =
    .ok (locals2, slots2, defined2) (shSt 8 5 2 0 0 2 [((-1:Int),(-1:Int))]) := by
  conv_lhs => rw [blockLocalsLoop.eq_def]
  simp only [run_bind, run_pure, sh_step2, sh_loop3]

set_option maxHeartbeats 400000 in
theorem sh_loop1 :
    blockLocalsLoop 13 (-1) [] [] [] (shSt 0 0 1 0 (-1) (-1) [((-1:Int),(-1:Int))]) =
    .ok (locals2, slots2, defined2) (shSt 8 5 2 0 0 2 [((-1:Int),(-1:Int))]) := by
  conv_lhs => rw [blockLocalsLoop.eq_def]
  simp only [run_bind, run_pure, sh_step1, sh_loop2]

set_option maxHeartbeats 800000 in
theorem sh_block : pblock 14 (initState srcShifted) =
    .ok astAligned (shSt 8 5 2 0 (-1) (-1) []) := by
  conv_lhs => rw [pblock.eq_def]
  simp only [run_bind, run_pure, sh_push, sh_loop1, sh_methods, sh_pop,
    sh_scanF, pget]
  rfl

set_option maxHeartbeats 400000 in
theorem sh_top : parseToplevel srcShifted 14 =
    .ok astAligned (shSt 8 5 2 0 (-1) (-1) []) := by
  rw [parseToplevel, ptoplevel]
  simp only [run_bind, run_pure, pget, sh_block]
  rfl

/-! ### `srcLocalDef` (`"x=1"`: the parser wraps the block in a Sequence) -/

theorem ld_push : pushIndent (initState srcLocalDef) =
    .ok () (ldSt 0 0 1 0 (-1) (-1) [((-1:Int),(-1:Int))]) := rfl

set_option maxHeartbeats 800000 in
theorem ld_step1 :
    blockLocalsStep 8 (-1) [] [] [] (ldSt 0 0 1 0 (-1) (-1) [((-1:Int),(-1:Int))]) =
    .ok (some (1, [Node.localVar ['x'] (Node.number 1 0)], [(['x'], false, 0)], [['x']]))
      (ldSt 3 0 1 0 0 1 [((-1:Int),(-1:Int))]) := rfl

set_option maxHeartbeats 800000 in
theorem ld_step2 :
    blockLocalsStep 7 1 [Node.localVar ['x'] (Node.number 1 0)] [(['x'], false, 0)] [['x']]
      (ldSt 3 0 1 0 0 1 [((-1:Int),(-1:Int))]) =
    .ok none (ldSt 3 0 1 0 0 1 [((-1:Int),(-1:Int))]) := rfl

set_option maxHeartbeats 800000 in
theorem ld_methods : blockMethodsLoop 9 [['x']] [] []
    (ldSt 3 0 1 0 0 1 [((-1:Int),(-1:Int))]) =
    .ok [] (ldSt 3 0 1 0 0 1 [((-1:Int),(-1:Int))]) := rfl

theorem ld_pop : popIndent (ldSt 3 0 1 0 0 1 [((-1:Int),(-1:Int))]) =
    .ok () (ldSt 3 0 1 0 (-1) (-1) []) := rfl

theorem ld_scanF : scan (ldSt 3 0 1 0 (-1) (-1) []) =
    .ok () (ldSt 3 0 1 0 (-1) (-1) []) := rfl

set_option maxHeartbeats 400000 in
theorem ld_loop2 :
    blockLocalsLoop 8 1 [Node.localVar ['x'] (Node.number 1 0)] [(['x'], false, 0)] [['x']]
      (ldSt 3 0 1 0 0 1 [((-1:Int),(-1:Int))]) =
    .ok ([Node.localVar ['x'] (Node.number 1 0)], [(['x'], false, 0)], [['x']])
      (ldSt 3 0 1 0 0 1 [((-1:Int),(-1:Int))]) := by
  conv_lhs => rw [blockLocalsLoop.eq_def]
  simp only [run_bind, run_pure, ld_step2]

set_option maxHeartbeats 400000 in
theorem ld_loop1 :
    blockLocalsLoop 9 (-1) [] [] [] (ldSt 0 0 1 0 (-1) (-1) [((-1:Int),(-1:Int))]) =
    .ok ([Node.localVar ['x'] (Node.number 1 0)], [(['x'], false, 0)], [['x']])
      (ldSt 3 0 1 0 0 1 [((-1:Int),(-1:Int))]) := by
  conv_lhs => rw [blockLocalsLoop.eq_def]
  simp only [run_bind, run_pure, ld_step1, ld_loop2]

set_option maxHeartbeats 800000 in
theorem ld_block : pblock 10 (initState srcLocalDef) =
    .ok astLocalDef (ldSt 3 0 1 0 (-1) (-1) []) := by
  conv_lhs => rw [pblock.eq_def]
  simp only [run_bind, run_pure, ld_push, ld_loop1, ld_methods, ld_pop,
    ld_scanF, pget]
  rfl

set_option maxHeartbeats 400000 in
theorem ld_top : parseToplevel srcLocalDef 10 =
    .ok astLocalDef (ldSt 3 0 1 0 (-1) (-1) []) := by
  rw [parseToplevel, ptoplevel]
  simp only [run_bind, run_pure, pget, ld_block]
  rfl

/-- C1: the number branch of `Parser.atom` strips the trailing zeros of
the integer part BEFORE appending the decimal digits, so the literal
`100.5` produces the Number node `15 x 10 ^ 1` = `150`, not `100.5`:
the normalisation does not preserve the exact decimal value. -/
theorem claim_C1_number_value :
    parsedExpr ("100.5".toList) 8 = some (Node.number 15 1) ∧
    atomNumber ("100".toList) (some ("5".toList)) none = some (15, 1) ∧
    literalParts ("100".toList) (some ("5".toList)) none = some (1005, 1, 0) ∧
    (15 : ℚ) * 10 ^ (1 : ℤ) ≠ literalQ (1005, 1, 0) := by
  refine ⟨rfl, by decide, by decide, ?_⟩
  norm_num [literalQ]

/-- C3: the parser wraps a top-level block that has local definitions in
a `Sequence`, and in that case the main-method check of
`Program.__init__` reads the unassigned attribute `self.toplevel_block`
and dies with `AttributeError` instead of checking for `main`; the check
only behaves as specified on a bare block. -/
theorem claim_C3_main_check :
    parsedToplevel srcLocalDef 10 = some astLocalDef ∧
    (∃ stmts, astLocalDef = Node.sequence stmts) ∧
    checkMain (.seq [.block ["x", "main"]]) = .error .attributeError ∧
    checkMain (.block ["main"]) = .ok () ∧
    checkMain (.block ["x"]) = .error .noMainMethod := by
  refine ⟨?_, ⟨_, rfl⟩, rfl, rfl, rfl⟩
  simp only [parsedToplevel, ld_top]

/-- C4: the integer string `"-0"` is rejected: `rstrip` of the zeros of
`"-0"` leaves the bare sign `"-"`, and `int("-")` raises `ValueError`,
so parsing the valid integer literal `-0` crashes instead of producing
a Number node. -/
theorem claim_C4_negative_zero :
    pyInt ("-0".toList) = some 0 ∧
    rstripZeros ("-0".toList) = ['-'] ∧
    atomNumber ("-0".toList) none none = none ∧
    parseExpr ("-0".toList) 8 = .err .valueError := by
  refine ⟨by decide, by decide, by decide, rfl⟩

/-- C5 (counterexample): `" a=1\nb=2"` moves the second statement of
`" a=1\n b=2"` one column to the left, yet the parse still succeeds —
no `ParseError` is raised, refuting the claim that the shift triggers
one. -/
theorem claim_C5_counterexample :
    parseToplevel srcShifted 14 =
      .ok astAligned (shSt 8 5 2 0 (-1) (-1) []) ∧
    ∀ e, parseToplevel srcShifted 14 ≠ PResult.err e := by
  refine ⟨sh_top, fun e he => ?_⟩
  rw [sh_top] at he
  exact PResult.noConfusion he

/-- C5 (amended): `Parser.statement_lines` re-anchors `indent_line` at
every statement, so the shifted source parses successfully to the very
same AST as the aligned one. -/
theorem claim_C5_reanchoring :
    parsedToplevel srcAligned 14 = some astAligned ∧
    parsedToplevel srcShifted 14 = some astAligned := by
  constructor
  · simp only [parsedToplevel, al_top]
  · simp only [parsedToplevel, sh_top]

/-- C10: `self` is argument 0 (`num_args` is the source argument count
plus one), the builder starts at `num_locals = num_args + num_locals + 1`,
each `add_temp` returns the current `num_locals` and increments it, so
distinct calls return distinct temps, every temp is at least `num_args`,
and `num_locals` stays strictly above every temp handed out. -/
theorem claim_C10_builder_temps (a l k j : Nat) (hkj : k < j) :
    (mkBuilder a l).numArgs = a + 1 ∧
    mkBuilder a l = builderAfter a l 0 ∧
    addTemp (builderAfter a l k) = (builderAfter a l (k + 1), tempAt a l k) ∧
    tempAt a l k ≠ tempAt a l j ∧
    (mkBuilder a l).numArgs ≤ tempAt a l k ∧
    tempAt a l k < (builderAfter a l j).numLocals := by
  refine ⟨rfl, rfl, rfl, ?_, ?_, ?_⟩
  · show a + l + 1 + k ≠ a + l + 1 + j
    omega
  · show a + 1 ≤ a + l + 1 + k
    omega
  · show a + l + 1 + k < a + l + 1 + j
    omega

/-- C10 (witness): the instance at two source arguments, one local and
the first two `add_temp` calls. -/
theorem claim_C10_builder_temps_witness :
    (mkBuilder 2 1).numArgs = 2 + 1 ∧
    mkBuilder 2 1 = builderAfter 2 1 0 ∧
    addTemp (builderAfter 2 1 0) = (builderAfter 2 1 (0 + 1), tempAt 2 1 0) ∧
    tempAt 2 1 0 ≠ tempAt 2 1 1 ∧
    (mkBuilder 2 1).numArgs ≤ tempAt 2 1 0 ∧
    tempAt 2 1 0 < (builderAfter 2 1 1).numLocals :=
  claim_C10_builder_temps 2 1 0 1 (by decide)

/-! ## Lemmas about `find_used_methods` -/

theorem builtinPass_nil (tags : String → Nat) (sent : List String)
    (called : List (Nat × String)) :
    builtinPass tags [] sent called = sent := rfl

theorem builtinPass_cons (tags : String → Nat) (m : BMethod)
    (rest : List BMethod) (sent : List String) (called : List (Nat × String)) :
    builtinPass tags (m :: rest) sent called =
      builtinPass tags rest
        (if m.sentMessages ≠ [] ∧
            (m.symbol ∈ sent ∨ (tags m.tagName, m.symbol) ∈ called)
         then sent ++ m.sentMessages else sent) called := rfl

theorem builtinPass_subset (tags : String → Nat) (methods : List BMethod)
    (called : List (Nat × String)) :
    ∀ (sent : List String) (x : String), x ∈ sent →
      x ∈ builtinPass tags methods sent called := by
  induction methods with
  | nil => intro sent x hx; exact hx
  | cons m rest ih =>
    intro sent x hx
    rw [builtinPass_cons]
    apply ih
    split
    · exact List.mem_append_left _ hx
    · exact hx

theorem builtinPass_append (tags : String → Nat) (pre post : List BMethod)
    (sent : List String) (called : List (Nat × String)) :
    builtinPass tags (pre ++ post) sent called =
      builtinPass tags post (builtinPass tags pre sent called) called := by
  simp only [builtinPass, List.foldl_append]

/-- C2 (counterexample): `find_used_methods` makes a single pass over
the built-in methods in list order, so with the method for `b` listed
before the method for `main`, `b` only becomes reachable after its own
entry was already skipped: `c`, sent by `b`, never enters the final
`sent_messages`, even though the claim requires transitive closure. -/
theorem claim_C2_counterexample :
    "b" ∈ (findUsedMethods (fun _ => 0) []
        [⟨"T", "b", ["c"]⟩, ⟨"T", "main", ["b"]⟩]).1 ∧
    "c" ∈ (⟨"T", "b", ["c"]⟩ : BMethod).sentMessages ∧
    "c" ∉ (findUsedMethods (fun _ => 0) []
        [⟨"T", "b", ["c"]⟩, ⟨"T", "main", ["b"]⟩]).1 := by
  refine ⟨by decide, by decide, by decide⟩

/-- C2 (amended): the guarantees the single pass does give.  The final
`sent_messages` contains `main`, `string` and every dynamic send symbol;
and for a built-in method already reachable at the moment the pass
reaches its list position (its symbol is in the set accumulated over the
earlier methods, or its `(tag, symbol)` pair is in the initial
`called_methods`), all of its `sent_messages` end up in the final set.
Closure is not transitive: reachability is judged against the
accumulator at the method's position only. -/
theorem claim_C2_single_pass (tags : String → Nat) (sends : List CSend)
    (methods : List BMethod) :
    "main" ∈ (findUsedMethods tags sends methods).1 ∧
    "string" ∈ (findUsedMethods tags sends methods).1 ∧
    (∀ s ∈ sends, s.hasReceiver = true → s.receiverBlockTag = none →
      s.symbol ∈ (findUsedMethods tags sends methods).1) ∧
    (∀ pre m post, methods = pre ++ m :: post →
      m.sentMessages ≠ [] →
      (m.symbol ∈ builtinPass tags pre (initialSent sends)
          (calledMethods sends (initialSent sends)) ∨
        (tags m.tagName, m.symbol) ∈ calledMethods sends (initialSent sends)) →
      ∀ x ∈ m.sentMessages, x ∈ (findUsedMethods tags sends methods).1) := by
  refine ⟨?_, ?_, ?_, ?_⟩
  · exact builtinPass_subset _ _ _ _ _ (by simp [initialSent])
  · exact builtinPass_subset _ _ _ _ _ (by simp [initialSent])
  · intro s hs hr hb
    apply builtinPass_subset
    simp only [initialSent, List.mem_cons, List.mem_map, List.mem_filter]
    right; right
    exact ⟨s, ⟨hs, by simp [hr, hb]⟩, rfl⟩
  · intro pre m post hsplit hne hreach x hx
    show x ∈ builtinPass tags methods (initialSent sends)
        (calledMethods sends (initialSent sends))
    rw [hsplit, builtinPass_append, builtinPass_cons, if_pos ⟨hne, hreach⟩]
    exact builtinPass_subset _ _ _ _ _ (List.mem_append_right _ hx)

/-- C2 (witness): with the `main` method listed first, the method for
`b` is reachable when the pass arrives at it, and its message `c` is
collected. -/
theorem claim_C2_single_pass_witness :
    "c" ∈ (findUsedMethods (fun _ => 0) []
        [⟨"T", "main", ["b"]⟩, ⟨"T", "b", ["c"]⟩]).1 :=
  (claim_C2_single_pass (fun _ => 0) []
      [⟨"T", "main", ["b"]⟩, ⟨"T", "b", ["c"]⟩]).2.2.2
    [⟨"T", "main", ["b"]⟩] ⟨"T", "b", ["c"]⟩ [] rfl (by decide)
    (Or.inl (by decide)) "c" (by decide)

/-! ## Lemmas about `allocate_ids` -/

theorem assignIdsBy_get (pred : CBlock → Bool) :
    ∀ (blocks : List CBlock) (n i : Nat) (b : CBlock), blocks[i]? = some b →
      (assignIdsBy pred blocks n).1[i]? =
        some (if pred b then some (n + (blocks.take i).countP pred) else none) := by
  intro blocks
  induction blocks with
  | nil => intro n i b hib; simp at hib
  | cons hd rest ih =>
    intro n i b hib
    match i with
    | 0 =>
      rw [List.getElem?_cons_zero] at hib
      injection hib with hib
      subst hib
      by_cases hhd : pred hd
      · simp [assignIdsBy, hhd]
      · simp [assignIdsBy, hhd]
    | i + 1 =>
      rw [List.getElem?_cons_succ] at hib
      by_cases hhd : pred hd
      · simp only [assignIdsBy, if_pos hhd, List.getElem?_cons_succ,
          List.take_succ_cons, List.countP_cons_of_pos _ _ hhd]
        rw [ih (n + 1) i b hib]
        congr 1
        split
        · congr 1
          omega
        · rfl
      · simp only [assignIdsBy, if_neg hhd, List.getElem?_cons_succ,
          List.take_succ_cons, List.countP_cons_of_neg _ _ hhd]
        exact ih n i b hib

theorem countP_take_lt (pred : CBlock → Bool) :
    ∀ (blocks : List CBlock) (i j : Nat) (b : CBlock), i < j →
      blocks[i]? = some b → pred b = true →
      (blocks.take i).countP pred < (blocks.take j).countP pred := by
  intro blocks
  induction blocks with
  | nil => intro i j b _ hib; simp at hib
  | cons hd rest ih =>
    intro i j b hij hib hpb
    match i, j with
    | 0, j + 1 =>
      rw [List.getElem?_cons_zero] at hib
      injection hib with hib
      subst hib
      simp [List.take_succ_cons, List.countP_cons_of_pos _ _ hpb]
    | i + 1, j + 1 =>
      rw [List.getElem?_cons_succ] at hib
      have hlt := ih i j b (by omega) hib hpb
      simp only [List.take_succ_cons, List.countP_cons]
      omega

/-- C6: after a successful `allocate_ids`, `pointer_tag_id` is the
number of opaque tag names; a non-constant block at position `i` gets
tag `opaque + pointer + (number of earlier non-constant blocks)` — the
tags are consecutive from the first id after the opaque and pointer
names, in block-list order, skipping constant blocks — a constant
block gets constant id counted the same way over constant blocks, and
distinct blocks get distinct tags / constant ids. -/
theorem claim_C6_id_allocation (nO nP nC mT mCT : Nat) (blocks : List CBlock)
    (r : IdAllocResult) (h : allocateIds nO nP nC mT mCT blocks = some r) :
    r.pointerTagId = nO ∧
    (∀ (i : Nat) (b : CBlock), blocks[i]? = some b → b.isConstant = false →
      r.blockTags[i]? =
        some (some (nO + nP + (blocks.take i).countP (fun x => !x.isConstant)))) ∧
    (∀ (i : Nat) (b : CBlock), blocks[i]? = some b → b.isConstant = true →
      r.blockConstantIds[i]? =
        some (some (nC + (blocks.take i).countP (·.isConstant)))) ∧
    (∀ (i j : Nat) (bi bj : CBlock), i < j →
      blocks[i]? = some bi → blocks[j]? = some bj →
      bi.isConstant = false → bj.isConstant = false →
      r.blockTags[i]? ≠ r.blockTags[j]?) ∧
    (∀ (i j : Nat) (bi bj : CBlock), i < j →
      blocks[i]? = some bi → blocks[j]? = some bj →
      bi.isConstant = true → bj.isConstant = true →
      r.blockConstantIds[i]? ≠ r.blockConstantIds[j]?) := by
  simp only [allocateIds] at h
  split at h
  · exact absurd h (by simp)
  · split at h
    · exact absurd h (by simp)
    · injection h with h
      subst h
      dsimp only
      refine ⟨rfl, ?_, ?_, ?_, ?_⟩
      · intro i b hib hbc
        rw [assignIdsBy_get _ _ _ _ _ hib]
        simp [hbc]
      · intro i b hib hbc
        rw [assignIdsBy_get _ _ _ _ _ hib]
        simp [hbc]
      · intro i j bi bj hij hib hjb hic hjc heq
        rw [assignIdsBy_get _ _ _ _ _ hib, assignIdsBy_get _ _ _ _ _ hjb] at heq
        simp only [hic, hjc, Bool.not_false, if_pos] at heq
        injection heq with heq
        injection heq with heq
        have := countP_take_lt (fun x => !x.isConstant) blocks i j bi hij hib
          (by simp [hic])
        omega
      · intro i j bi bj hij hib hjb hic hjc heq
        rw [assignIdsBy_get _ _ _ _ _ hib, assignIdsBy_get _ _ _ _ _ hjb] at heq
        simp only [hic, hjc, if_pos] at heq
        injection heq with heq
        injection heq with heq
        have := countP_take_lt (fun x => x.isConstant) blocks i j bi hij hib hic
        omega

/-- C6 (witness): three blocks — non-constant, constant, non-constant —
with 3 opaque and 2 pointer names: the non-constant blocks get tags 5
and 6, the constant block gets constant id 0, and the tags at positions
0 and 2 differ. -/
theorem claim_C6_id_allocation_witness :
    (⟨3, [some 5, none, some 6], [none, some 0, none], 7, 1⟩ :
        IdAllocResult).pointerTagId = 3 ∧
    (⟨3, [some 5, none, some 6], [none, some 0, none], 7, 1⟩ :
        IdAllocResult).blockTags[0]? ≠
      (⟨3, [some 5, none, some 6], [none, some 0, none], 7, 1⟩ :
        IdAllocResult).blockTags[2]? :=
  ⟨(claim_C6_id_allocation 3 2 0 100 100 [⟨false⟩, ⟨true⟩, ⟨false⟩]
      ⟨3, [some 5, none, some 6], [none, some 0, none], 7, 1⟩ (by decide)).1,
   (claim_C6_id_allocation 3 2 0 100 100 [⟨false⟩, ⟨true⟩, ⟨false⟩]
      ⟨3, [some 5, none, some 6], [none, some 0, none], 7, 1⟩ (by decide)).2.2.2.1
     0 2 ⟨false⟩ ⟨false⟩ (by decide) (by decide) (by decide) rfl rfl⟩

/-! ## Lemmas about the sorted emissions -/

theorem sortedSet_perm {α : Type} [LinearOrder α] {l1 l2 : List α}
    (h : l1.Perm l2) : sortedSet l1 = sortedSet l2 := by
  simp only [sortedSet]
  exact List.eq_of_perm_of_sorted
    ((List.perm_insertionSort _ _).trans
      (h.dedup.trans (List.perm_insertionSort _ _).symm))
    (List.sorted_insertionSort _ _) (List.sorted_insertionSort _ _)


/-- Two lists sorted by `index` that are permutations of each other are
equal when no `index` repeats. -/
theorem sorted_by_index_eq :
    ∀ (u v : List TraceBackInfo), u.Perm v →
      u.Sorted (fun a b => a.index ≤ b.index) →
      v.Sorted (fun a b => a.index ≤ b.index) →
      (u.map (·.index)).Nodup → u = v := by
  intro u
  induction u with
  | nil =>
    intro v hp _ _ _
    exact hp.nil_eq
  | cons a u ih =>
    intro v hp hsu hsv hnd
    cases v with
    | nil => exact absurd hp.eq_nil (by simp)
    | cons b v =>
      have hab : a = b := by
        by_contra hne
        have hav : a ∈ b :: v := hp.mem_iff.mp (List.mem_cons_self a u)
        have hbv : b ∈ a :: u := hp.symm.mem_iff.mp (List.mem_cons_self b v)
        have ha2 : a ∈ v := by
          cases List.mem_cons.mp hav with
          | inl hh => exact absurd hh hne
          | inr hh => exact hh
        have hb2 : b ∈ u := by
          cases List.mem_cons.mp hbv with
          | inl hh => exact absurd hh.symm hne
          | inr hh => exact hh
        have h1 : b.index ≤ a.index := List.rel_of_sorted_cons hsv a ha2
        have h2 : a.index ≤ b.index := List.rel_of_sorted_cons hsu b hb2
        have hmem : a.index ∈ u.map (·.index) :=
          List.mem_map.mpr ⟨b, hb2, (Nat.le_antisymm h2 h1).symm⟩
        exact (List.nodup_cons.mp hnd).1 hmem
      subst hab
      rw [ih v hp.cons_inv hsu.of_cons hsv.of_cons (List.nodup_cons.mp hnd).2]

theorem sortTracebackEntries_perm (l1 l2 : List TraceBackInfo) (h : l1.Perm l2)
    (hnd : (l1.map (·.index)).Nodup) :
    sortTracebackEntries l1 = sortTracebackEntries l2 := by
  apply sorted_by_index_eq
  · exact (List.perm_insertionSort _ _).trans
      (h.trans (List.perm_insertionSort _ _).symm)
  · exact List.sorted_insertionSort _ _
  · exact List.sorted_insertionSort _ _
  · exact (((List.perm_insertionSort (fun a b => a.index ≤ b.index) l1).map
      (·.index)).nodup_iff).mpr hnd

/-- C7: the declaration and traceback emissions are deterministic in
set-iteration order: `emit_code_declarations` sorts each declaration
set, so feeding the `sent_messages` set in any insertion order yields
the identical token stream, and traceback entries (whose table indexes
are distinct) are emitted sorted by index, identically for any
iteration order of the table. -/
theorem claim_C7_sorted_emission (codeTable : List (String × List Nat))
    (s1 s2 : List String) (hs : s1.Perm s2)
    (tb1 tb2 : List TraceBackInfo) (htb : tb1.Perm tb2)
    (hnd : (tb1.map (·.index)).Nodup) :
    emitCodeDeclarations codeTable s1 = emitCodeDeclarations codeTable s2 ∧
    sortTracebackEntries tb1 = sortTracebackEntries tb2 := by
  constructor
  · simp only [emitCodeDeclarations]
    rw [sortedSet_perm (hs.append_right (codeTable.map (·.1)))]
  · exact sortTracebackEntries_perm tb1 tb2 htb hnd

/-- C7 (witness): swapping the insertion order of two sent messages and
of two traceback entries leaves both emissions unchanged. -/
theorem claim_C7_sorted_emission_witness :
    emitCodeDeclarations [("at:", [5])] ["string", "main"] =
      emitCodeDeclarations [("at:", [5])] ["main", "string"] ∧
    sortTracebackEntries
        [⟨0, "main", "s", [], 1, 0, 1⟩, ⟨1, "main", "s", [], 2, 0, 1⟩] =
      sortTracebackEntries
        [⟨1, "main", "s", [], 2, 0, 1⟩, ⟨0, "main", "s", [], 1, 0, 1⟩] :=
  claim_C7_sorted_emission [("at:", [5])] ["string", "main"] ["main", "string"]
    (List.Perm.swap "main" "string" [])
    [⟨0, "main", "s", [], 1, 0, 1⟩, ⟨1, "main", "s", [], 2, 0, 1⟩]
    [⟨1, "main", "s", [], 2, 0, 1⟩, ⟨0, "main", "s", [], 1, 0, 1⟩]
    (List.Perm.swap (⟨1, "main", "s", [], 2, 0, 1⟩ : TraceBackInfo)
      (⟨0, "main", "s", [], 1, 0, 1⟩ : TraceBackInfo) [])
    (by decide)

/-! ## Lemmas about `compile_traceback_info` -/

theorem tbGo_nil (table : List (TBKey × TraceBackInfo))
    (out : List (TBSend × Option TraceBackInfo)) :
    tbGo table out [] = (table, out) := rfl

theorem tbGo_cons_none (table : List (TBKey × TraceBackInfo))
    (out : List (TBSend × Option TraceBackInfo)) (send : TBSend)
    (rest : List TBSend) (h : send.parseState = none) :
    tbGo table out (send :: rest) = tbGo table (out ++ [(send, none)]) rest := by
  simp [tbGo, h]

theorem tbGo_cons_found (table : List (TBKey × TraceBackInfo))
    (out : List (TBSend × Option TraceBackInfo)) (send : TBSend)
    (rest : List TBSend) (ps : TBParseState) (tb : TraceBackInfo)
    (h : send.parseState = some ps) (hl : table.lookup (tbKey ps) = some tb) :
    tbGo table out (send :: rest) =
      tbGo table (out ++ [(send, some tb)]) rest := by
  simp [tbGo, h, hl]

theorem tbGo_cons_new (table : List (TBKey × TraceBackInfo))
    (out : List (TBSend × Option TraceBackInfo)) (send : TBSend)
    (rest : List TBSend) (ps : TBParseState)
    (h : send.parseState = some ps) (hl : table.lookup (tbKey ps) = none) :
    tbGo table out (send :: rest) =
      tbGo (table ++ [(tbKey ps, mkTraceBackInfo send ps table.length)])
        (out ++ [(send, some (mkTraceBackInfo send ps table.length))]) rest := by
  simp [tbGo, h, hl]

theorem lookup_append_left (l1 l2 : List (TBKey × TraceBackInfo)) (k : TBKey)
    (tb : TraceBackInfo) (h : l1.lookup k = some tb) :
    (l1 ++ l2).lookup k = some tb := by
  induction l1 with
  | nil => simp [List.lookup] at h
  | cons p rest ih =>
    rw [List.cons_append]
    cases p with
    | mk a b =>
      by_cases hk : k == a
      · simp only [List.lookup, hk] at h ⊢
        exact h
      · simp only [List.lookup, Bool.not_eq_true] at hk
        simp only [List.lookup, hk] at h ⊢
        exact ih h

theorem lookup_append_new (l1 : List (TBKey × TraceBackInfo)) (k : TBKey)
    (tb : TraceBackInfo) (h : l1.lookup k = none) :
    (l1 ++ [(k, tb)]).lookup k = some tb := by
  induction l1 with
  | nil => simp [List.lookup]
  | cons p rest ih =>
    rw [List.cons_append]
    cases p with
    | mk a b =>
      by_cases hk : k == a
      · simp only [List.lookup, hk] at h
        exact absurd h (by simp)
      · simp only [Bool.not_eq_true] at hk
        simp only [List.lookup, hk] at h ⊢
        exact ih h

theorem firstSend_extend (processed : List TBSend) (send : TBSend) (k : TBKey)
    (s : TBSend) (h : firstSendWithKey processed k = some s) :
    firstSendWithKey (processed ++ [send]) k = some s := by
  simp only [firstSendWithKey] at h ⊢
  rw [List.find?_append, h]
  rfl

theorem firstSend_new (processed : List TBSend) (send : TBSend)
    (ps : TBParseState) (h : send.parseState = some ps)
    (hnone : firstSendWithKey processed (tbKey ps) = none) :
    firstSendWithKey (processed ++ [send]) (tbKey ps) = some send := by
  simp only [firstSendWithKey] at hnone ⊢
  rw [List.find?_append, hnone]
  simp [List.find?, h]

theorem firstSend_none_of_lookup_none (processed : List TBSend)
    (table : List (TBKey × TraceBackInfo)) (k : TBKey)
    (hkc : ∀ s ∈ processed, ∀ ps, s.parseState = some ps →
      (table.lookup (tbKey ps)).isSome)
    (hl : table.lookup k = none) :
    firstSendWithKey processed k = none := by
  simp only [firstSendWithKey]
  rw [List.find?_eq_none]
  intro s hs
  cases hps : s.parseState with
  | none => simp
  | some ps =>
    simp only
    intro hbeq
    have hk : tbKey ps = k := eq_of_beq hbeq
    rw [← hk] at hl
    have := hkc s hs ps hps
    rw [hl] at this
    simp at this

/-- One pass of the `compile_traceback_info` loop preserves the
invariant `TbInv`. -/
theorem tbGo_inv :
    ∀ (rest processed : List TBSend) (table : List (TBKey × TraceBackInfo))
      (out : List (TBSend × Option TraceBackInfo)),
      TbInv processed table out →
      TbInv (processed ++ rest) (tbGo table out rest).1 (tbGo table out rest).2 := by
  intro rest
  induction rest with
  | nil =>
    intro processed table out h
    simpa [tbGo_nil] using h
  | cons send rest ih =>
    intro processed table out h
    obtain ⟨htab, hkc, hout⟩ := h
    have hpa : processed ++ send :: rest = (processed ++ [send]) ++ rest := by
      simp
    cases hps : send.parseState with
    | none =>
      rw [tbGo_cons_none table out send rest hps, hpa]
      apply ih
      refine ⟨?_, ?_, ?_⟩
      · intro e he
        obtain ⟨s, ps2, hf, hsps, hmk⟩ := htab e he
        exact ⟨s, ps2, firstSend_extend processed send e.1 s hf, hsps, hmk⟩
      · intro s hs ps2 hsps
        rcases List.mem_append.mp hs with h1 | h1
        · exact hkc s h1 ps2 hsps
        · have hse : s = send := by simpa using h1
          rw [hse, hps] at hsps
          exact absurd hsps (by simp)
      · intro p hp
        rcases List.mem_append.mp hp with h1 | h1
        · exact hout p h1
        · have hpe : p = (send, none) := by simpa using h1
          subst hpe
          refine ⟨fun _ => rfl, ?_⟩
          intro ps2 hps2
          have hps2b : send.parseState = some ps2 := hps2
          rw [hps] at hps2b
          exact absurd hps2b (by simp)
    | some ps =>
      cases hlk : table.lookup (tbKey ps) with
      | some tb =>
        rw [tbGo_cons_found table out send rest ps tb hps hlk, hpa]
        apply ih
        refine ⟨?_, ?_, ?_⟩
        · intro e he
          obtain ⟨s, ps2, hf, hsps, hmk⟩ := htab e he
          exact ⟨s, ps2, firstSend_extend processed send e.1 s hf, hsps, hmk⟩
        · intro s hs ps2 hsps
          rcases List.mem_append.mp hs with h1 | h1
          · exact hkc s h1 ps2 hsps
          · have hse : s = send := by simpa using h1
            rw [hse, hps] at hsps
            injection hsps with hsps
            subst hsps
            simp [hlk]
        · intro p hp
          rcases List.mem_append.mp hp with h1 | h1
          · exact hout p h1
          · have hpe : p = (send, some tb) := by simpa using h1
            subst hpe
            constructor
            · intro hn
              have hnb : send.parseState = none := hn
              rw [hps] at hnb
              exact absurd hnb (by simp)
            · intro ps2 hps2
              have hps2b : send.parseState = some ps2 := hps2
              rw [hps] at hps2b
              injection hps2b with hps2b
              subst hps2b
              exact ⟨tb, rfl, hlk⟩
      | none =>
        rw [tbGo_cons_new table out send rest ps hps hlk, hpa]
        apply ih
        have hfn : firstSendWithKey processed (tbKey ps) = none :=
          firstSend_none_of_lookup_none processed table (tbKey ps) hkc hlk
        refine ⟨?_, ?_, ?_⟩
        · intro e he
          rcases List.mem_append.mp he with h1 | h1
          · obtain ⟨s, ps2, hf, hsps, hmk⟩ := htab e h1
            exact ⟨s, ps2, firstSend_extend processed send e.1 s hf, hsps, hmk⟩
          · have hee : e = (tbKey ps, mkTraceBackInfo send ps table.length) := by
              simpa using h1
            subst hee
            exact ⟨send, ps, firstSend_new processed send ps hps hfn, hps, rfl⟩
        · intro s hs ps2 hsps
          rcases List.mem_append.mp hs with h1 | h1
          · have hks := hkc s h1 ps2 hsps
            cases hsome : table.lookup (tbKey ps2) with
            | none =>
              rw [hsome] at hks
              exact absurd hks (by simp)
            | some v =>
              rw [lookup_append_left table
                [(tbKey ps, mkTraceBackInfo send ps table.length)]
                (tbKey ps2) v hsome]
              rfl
          · have hse : s = send := by simpa using h1
            rw [hse, hps] at hsps
            injection hsps with hsps
            subst hsps
            rw [lookup_append_new table (tbKey ps)
              (mkTraceBackInfo send ps table.length) hlk]
            rfl
        · intro p hp
          rcases List.mem_append.mp hp with h1 | h1
          · obtain ⟨hn, hsome⟩ := hout p h1
            refine ⟨hn, ?_⟩
            intro ps2 hps2
            obtain ⟨tb2, htb2, hl2⟩ := hsome ps2 hps2
            exact ⟨tb2, htb2, lookup_append_left table _ (tbKey ps2) tb2 hl2⟩
          · have hpe : p = (send, some (mkTraceBackInfo send ps table.length)) := by
              simpa using h1
            subst hpe
            constructor
            · intro hn
              have hnb : send.parseState = none := hn
              rw [hps] at hnb
              exact absurd hnb (by simp)
            · intro ps2 hps2
              have hps2b : send.parseState = some ps2 := hps2
              rw [hps] at hps2b
              injection hps2b with hps2b
              subst hps2b
              exact ⟨mkTraceBackInfo send ps table.length, rfl,
                lookup_append_new table (tbKey ps) _ hlk⟩

/-- C8 (counterexample): in `foo bar: 1` the atom send `foo` and the
keyword send `bar:` carry the same saved parse state, so they share one
deduplicated `TraceBackInfo` — built from the FIRST send at that key —
whose underline is `underlineOf "foo" = 3`; the `bar:` send is thus
recorded with underline 3, not the `underlineOf "bar:" = 4` its own
symbol prescribes, refuting the per-send underline formula. -/
theorem claim_C8_counterexample :
    (compileTracebackInfo
        [⟨"foo".toList, "main", some ⟨"t", 1, 0, "foo bar: 1".toList⟩⟩,
         ⟨"bar:".toList, "main", some ⟨"t", 1, 0, "foo bar: 1".toList⟩⟩]).2.map
        (fun p => p.2.map (fun tb => tb.underline)) = [some 3, some 3] ∧
    underlineOf ("bar:".toList) = 4 := by
  refine ⟨by decide, by decide⟩

/-- C8 (amended): sends with no parse state get no `TraceBackInfo`;
every send with a parse state is attached exactly the table entry at
its `(stream_name, line, column)` key, so all sends sharing a key share
one `TraceBackInfo` (deduplication holds); and each table entry is
built from the FIRST send in list order carrying its key — its
underline follows the colon/length formula of that first send's symbol,
not necessarily of every send that shares the entry. -/
theorem claim_C8_dedup (sends : List TBSend) :
    (∀ p ∈ (compileTracebackInfo sends).2, p.1.parseState = none → p.2 = none) ∧
    (∀ p ∈ (compileTracebackInfo sends).2, ∀ ps, p.1.parseState = some ps →
      ∃ tb, p.2 = some tb ∧
        (compileTracebackInfo sends).1.lookup (tbKey ps) = some tb) ∧
    (∀ p q, p ∈ (compileTracebackInfo sends).2 →
      q ∈ (compileTracebackInfo sends).2 →
      ∀ ps1 ps2, p.1.parseState = some ps1 → q.1.parseState = some ps2 →
      tbKey ps1 = tbKey ps2 → p.2 = q.2) ∧
    (∀ e ∈ (compileTracebackInfo sends).1, ∃ s ps,
      firstSendWithKey sends e.1 = some s ∧ s.parseState = some ps ∧
      e.2.underline = underlineOf s.symbol) := by
  have hinv : TbInv sends (compileTracebackInfo sends).1
      (compileTracebackInfo sends).2 := by
    have h0 := tbGo_inv sends [] [] [] ⟨by simp, by simp, by simp⟩
    simpa [compileTracebackInfo] using h0
  obtain ⟨htab, hkc, hout⟩ := hinv
  refine ⟨?_, ?_, ?_, ?_⟩
  · intro p hp hn
    exact (hout p hp).1 hn
  · intro p hp ps hps
    exact (hout p hp).2 ps hps
  · intro p q hp hq ps1 ps2 hps1 hps2 hk
    obtain ⟨tb1, he1, hl1⟩ := (hout p hp).2 ps1 hps1
    obtain ⟨tb2, he2, hl2⟩ := (hout q hq).2 ps2 hps2
    rw [hk] at hl1
    rw [hl1] at hl2
    injection hl2 with hl2
    rw [he1, he2, hl2]
  · intro e he
    obtain ⟨s, ps, hf, hsps, hmk⟩ := htab e he
    refine ⟨s, ps, hf, hsps, ?_⟩
    rw [hmk]
    rfl

/-- C8 (witness): in the two-send example both sends are attached the
same `TraceBackInfo`, as the amended deduplication property requires. -/
theorem claim_C8_dedup_witness :
    ((⟨"foo".toList, "main", some ⟨"t", 1, 0, "foo bar: 1".toList⟩⟩ : TBSend),
      some (⟨0, "main", "t", "foo bar: 1".toList, 1, 0, 3⟩ : TraceBackInfo)).2 =
    ((⟨"bar:".toList, "main", some ⟨"t", 1, 0, "foo bar: 1".toList⟩⟩ : TBSend),
      some (⟨0, "main", "t", "foo bar: 1".toList, 1, 0, 3⟩ : TraceBackInfo)).2 :=
  (claim_C8_dedup
      [⟨"foo".toList, "main", some ⟨"t", 1, 0, "foo bar: 1".toList⟩⟩,
       ⟨"bar:".toList, "main", some ⟨"t", 1, 0, "foo bar: 1".toList⟩⟩]).2.2.1
    (⟨"foo".toList, "main", some ⟨"t", 1, 0, "foo bar: 1".toList⟩⟩,
      some ⟨0, "main", "t", "foo bar: 1".toList, 1, 0, 3⟩)
    (⟨"bar:".toList, "main", some ⟨"t", 1, 0, "foo bar: 1".toList⟩⟩,
      some ⟨0, "main", "t", "foo bar: 1".toList, 1, 0, 3⟩)
    (by decide) (by decide)
    ⟨"t", 1, 0, "foo bar: 1".toList⟩ ⟨"t", 1, 0, "foo bar: 1".toList⟩
    rfl rfl rfl

/-! ## Lemmas about the string literal regex -/

theorem stringBodies_escape (r : List Char) :
    stringBodies ('\\' :: '\'' :: r) =
      ((stringBodies r).map fun q => ('\\' :: '\'' :: q.1, q.2))
        ++ [(['\\'], '\'' :: r), ([], '\\' :: '\'' :: r)] := rfl

theorem stringBodies_cons_plain (c : Char) (r : List Char)
    (h : plainChar c = true) :
    stringBodies (c :: r) =
      ((stringBodies r).map fun q => (c :: q.1, q.2)) ++ [([], c :: r)] := by
  simp only [plainChar, Bool.and_eq_true, decide_eq_true_eq] at h
  obtain ⟨⟨⟨hq, hbs⟩, hcr⟩, hlf⟩ := h
  rw [stringBodies.eq_def]
  split
  · rename_i heq
    exact absurd heq (by simp)
  · rename_i r2 heq
    injection heq with h1 h2
    exact absurd h1 hbs
  · rename_i c2 r2 heq
    injection heq with h1 h2
    subst h1
    subst h2
    rw [if_pos ⟨hcr, hlf, hq⟩]

theorem stringNodeValue_cons_plain (c : Char) (r : List Char)
    (h : plainChar c = true) :
    stringNodeValue (c :: r) = c :: stringNodeValue r := by
  simp only [plainChar, Bool.and_eq_true, decide_eq_true_eq] at h
  obtain ⟨⟨⟨hq, hbs⟩, hcr⟩, hlf⟩ := h
  rw [stringNodeValue.eq_def]
  split
  · rename_i r2 heq
    injection heq with h1 h2
    exact absurd h1 hbs
  · rename_i c2 r2 heq
    injection heq with h1 h2
    subst h1
    subst h2
    rfl
  · rename_i heq
    exact absurd heq (by simp)

theorem stringNodeValue_plain_escape :
    ∀ (a b : List Char), a.all plainChar = true →
      stringNodeValue (a ++ '\\' :: '\'' :: b) = a ++ '\'' :: stringNodeValue b := by
  intro a b
  induction a with
  | nil => intro _; rfl
  | cons c a ih =>
    intro ha
    rw [List.all_cons, Bool.and_eq_true] at ha
    rw [List.cons_append, stringNodeValue_cons_plain c _ ha.1, ih ha.2,
      List.cons_append]

/-- The backtracking search of `re_string` accepts an all-plain body
followed by the closing quote, consuming the whole body. -/
theorem stringBodies_find_plain :
    ∀ (b : List Char), b.all plainChar = true →
      (stringBodies (b ++ ['\''])).find?
          (fun q => q.2.head? = some '\'') = some (b, ['\'']) := by
  intro b
  induction b with
  | nil => intro _; rfl
  | cons c b ih =>
    intro hb
    rw [List.all_cons, Bool.and_eq_true] at hb
    rw [List.cons_append, stringBodies_cons_plain c _ hb.1, List.find?_append,
      List.find?_map]
    have step : (stringBodies (b ++ ['\''])).find?
        ((fun q => q.2.head? = some '\'') ∘ fun q => (c :: q.1, q.2)) =
        some (b, ['\'']) := ih hb.2
    rw [step]
    rfl

/-- The search prefers continuing through a `\'` escape over stopping
at its backslash, so an escape inside an otherwise plain body is
consumed as part of the string. -/
theorem stringBodies_find_escape :
    ∀ (a b : List Char), a.all plainChar = true → b.all plainChar = true →
      (stringBodies (a ++ '\\' :: '\'' :: b ++ ['\''])).find?
          (fun q => q.2.head? = some '\'') =
        some (a ++ '\\' :: '\'' :: b, ['\'']) := by
  intro a b ha hb
  induction a with
  | nil =>
    rw [List.nil_append, List.cons_append, List.cons_append, stringBodies_escape,
      List.find?_append, List.find?_map]
    have step : (stringBodies (b ++ ['\''])).find?
        ((fun q => q.2.head? = some '\'') ∘ fun q => ('\\' :: '\'' :: q.1, q.2)) =
        some (b, ['\'']) := stringBodies_find_plain b hb
    rw [step]
    rfl
  | cons c a ih =>
    rw [List.all_cons, Bool.and_eq_true] at ha
    rw [List.cons_append, List.cons_append, stringBodies_cons_plain c _ ha.1,
      List.find?_append, List.find?_map]
    have step : (stringBodies (a ++ '\\' :: '\'' :: b ++ ['\''])).find?
        ((fun q => q.2.head? = some '\'') ∘ fun q => (c :: q.1, q.2)) =
        some (a ++ '\\' :: '\'' :: b, ['\'']) := ih ha.2
    rw [step]
    rfl

/-- C9: string literals are single-quote delimited with exactly the
escape `\'`.  For any literal body made of plain characters around one
`\'` escape, `re_string` matches the whole literal, consuming the
escape as part of the body (rather than closing the string at the
escaped quote); the string value decodes `\'` to a quote character at
exactly that position; a backslash before any other character is no
escape (it stays two characters); and parsing such a literal yields a
String node carrying the raw body. -/
theorem claim_C9_string_escape (a b : List Char)
    (ha : a.all plainChar = true) (hb : b.all plainChar = true) :
    matchStringTok ('\'' :: ((a ++ '\\' :: '\'' :: b) ++ ['\''])) =
      some (a ++ '\\' :: '\'' :: b, (a ++ '\\' :: '\'' :: b).length + 2) ∧
    (stringNodeValue (a ++ '\\' :: '\'' :: b))[a.length]? = some '\'' ∧
    stringNodeValue ['a', '\\', 'n'] = ['a', '\\', 'n'] ∧
    parsedExpr ['\'', 'i', 't', '\\', '\'', 's', '\''] 8 =
      some (Node.strLit ['i', 't', '\\', '\'', 's']) := by
  refine ⟨?_, ?_, rfl, rfl⟩
  · have h1 := stringBodies_find_escape a b ha hb
    show ((stringBodies ((a ++ '\\' :: '\'' :: b) ++ ['\''])).find?
        fun q => q.2.head? = some '\'').map (fun q => (q.1, q.1.length + 2)) =
      some (a ++ '\\' :: '\'' :: b, (a ++ '\\' :: '\'' :: b).length + 2)
    rw [h1]
    rfl
  · rw [stringNodeValue_plain_escape a b ha,
      List.getElem?_append_right (Nat.le_refl a.length)]
    simp

/-- C9 (witness): the literal `'it\'s'` — body `it\'s` — matches as one
string whose value has the quote at position 2. -/
theorem claim_C9_string_escape_witness :
    matchStringTok ('\'' :: ((['i', 't'] ++ '\\' :: '\'' :: ['s']) ++ ['\''])) =
      some (['i', 't'] ++ '\\' :: '\'' :: ['s'],
        (['i', 't'] ++ '\\' :: '\'' :: ['s']).length + 2) ∧
    (stringNodeValue (['i', 't'] ++ '\\' :: '\'' :: ['s']))[
        (['i', 't'] : List Char).length]? = some '\'' ∧
    stringNodeValue ['a', '\\', 'n'] = ['a', '\\', 'n'] ∧
    parsedExpr ['\'', 'i', 't', '\\', '\'', 's', '\''] 8 =
      some (Node.strLit ['i', 't', '\\', '\'', 's']) :=
  claim_C9_string_escape ['i', 't'] ['s'] (by decide) (by decide)

end Ome
